import Mathlib

/-!
# Problem-Code: a bounded-concurrency TCP request/response server

A shallow embedding of `serv_lib.h`, `serv_lib.c`, the start-up and the accept
loop of `server.c`, and of the port conversion, the request exchange and the
handshake of the client (`cli_lib.c`, `client.c`), followed by theorems about
it.

* C `char` buffers are lists of byte values (`List Nat`); a C string is the
  run of bytes before the first NUL.
* C `int` values are `Int`.
* A connected socket is a byte queue with a failure switch for `recv` and one
  for `send` (`Sock`).
* Where C compares a `size_t` with an `int`, the `int` is converted first
  (`size_t_of_int`).
* The shared `serv_t` is the structure `Serv`; calls into the C library that
  other threads or the peer can observe are recorded in its `log`.
* The acceptor thread (the `while` loop of `main`) and the worker threads
  (`thread_handler`) are program counters in `Sys`; one `Action` is one
  atomic step of one thread.
-/

namespace ProblemCode

/-! ## Constants of `serv_lib.h` and `serv_lib.c` -/

def INVALID_PORT : Int := -1
def MAX_BUFFER_SIZE : Nat := 100
def SOCK_READ_SUCCESS : Int := 0
def SOCK_READ_ERROR : Int := -1
def SERV_INIT_SUCCESS : Int := 0
def SERV_INIT_FAILURE : Int := -1
def SOCK_CLIENT_DISCONNECT : Int := -2
def SOCK_SEND_ERROR : Int := -3
def MIN_THREADS : Int := 2
def PURGE_BUFFER_SIZE : Nat := 256

/-- The value of `EINVAL` in `errno.h`. -/
def EINVAL : Int := 22

/-! ## Bytes and C strings -/

/-- Bytes of a string literal (without the terminating NUL). -/
def str_bytes (s : String) : List Nat := s.toList.map Char.toNat

/-- The C string stored at the start of a buffer: the bytes before the first NUL. -/
def cstr (buf : List Nat) : List Nat := buf.takeWhile (fun c => c != 0)

/-- C library `strnlen`: length of the C string, capped at `maxlen`. -/
def strnlen (buf : List Nat) (maxlen : Nat) : Nat := min (cstr buf).length maxlen

/-- C library `isdigit` in the C locale: the byte is one of `'0'` .. `'9'`. -/
def isdigit (c : Nat) : Bool := decide (48 ≤ c) && decide (c ≤ 57)

/-- Source `is_operator` (serv_lib.c 27-38): the byte is one of `* + - / %`. -/
def is_operator (c : Nat) : Bool :=
  if 42 = c || 43 = c || 45 = c || 47 = c || 37 = c then true else false

/-- Source `sanitize_input_string` (serv_lib.c 117-140), for a non-NULL pointer.
The argument is the memory from the cursor onwards; the result is the same
memory after the loop has run. The loop stops at a NUL, overwrites a newline
with NUL and stops, and overwrites with a space every byte that is neither a
digit, an operator nor a dot. -/
def sanitize_input_string : List Nat → List Nat
  | [] => []
  | c :: rest =>
    if c = 0 then c :: rest
    else if c = 10 then 0 :: rest
    else if !isdigit c && !is_operator c && c != 46 then 32 :: sanitize_input_string rest
    else c :: sanitize_input_string rest

/-- The sanitising rule in the words of the specification, for one byte: a
decimal digit, one of `+ - * / %`, or a dot is kept, anything else becomes a
space. -/
def spec_sanitize_char (c : Nat) : Nat :=
  if (48 ≤ c ∧ c ≤ 57) ∨ c = 43 ∨ c = 45 ∨ c = 42 ∨ c = 47 ∨ c = 37 ∨ c = 46 then c else 32

/-- The sanitising rule in the words of the specification, for a string: cut
at the first newline, then apply the byte rule to every byte that is left. -/
def spec_sanitize (s : List Nat) : List Nat :=
  (s.takeWhile (fun c => c != 10)).map spec_sanitize_char

/-! ## Sockets -/

/-- A connected stream socket, seen from the server.
`queue` holds the bytes that have arrived and are not yet consumed.
`recv_err` makes every `recv` fail. `send_err` makes every `send` fall short:
with `send_short = none` the call fails, and with `send_short = some k` it
delivers no more than `k` bytes.
`nonblock` is the `O_NONBLOCK` file status flag.
`outbox` lists what `send` has delivered, oldest first. -/
structure Sock where
  queue : List Nat
  recv_err : Bool
  send_err : Bool
  nonblock : Bool
  outbox : List (List Nat)
  send_short : Option Nat
deriving DecidableEq, Repr

/-- What a `recv` call leaves behind: return value, buffer, socket. -/
structure RecvResult where
  ret : Int
  buf : List Nat
  sock : Sock
deriving DecidableEq, Repr

/-- What a `send` call leaves behind: return value and socket. -/
structure SendResult where
  ret : Int
  sock : Sock
deriving DecidableEq, Repr

/-- C library `recv(fd, buf, len, flags)` on the byte-queue socket; `peek`
stands for `MSG_PEEK`.
A failing socket returns `-1`. With bytes queued, the first `len` of them are
copied to the start of `buf` and their number is returned; without `MSG_PEEK`
they leave the queue. With nothing queued, a non-blocking socket returns `-1`
(`EAGAIN`), and a blocking socket returns once the peer has shut down, with `0`. -/
def recv (s : Sock) (buf : List Nat) (len : Nat) (peek : Bool) : RecvResult :=
  if s.recv_err then ⟨-1, buf, s⟩
  else if s.queue.isEmpty then ⟨if s.nonblock then -1 else 0, buf, s⟩
  else
    let data := s.queue.take len
    ⟨(data.length : Int), data ++ buf.drop data.length,
      if peek then s else { s with queue := s.queue.drop len }⟩

/-- C library `send(fd, msg, len, 0)`, as far as it returns. On a socket with
`send_err` the call either fails and returns `-1`, or delivers only the first
`min k len` bytes of `msg` and returns their number. Otherwise the first `len`
bytes of `msg` are delivered and `len` is returned. A `send` that raises
`SIGPIPE` and ends the process does not return and has no result here. -/
def send (s : Sock) (msg : List Nat) (len : Nat) : SendResult :=
  if s.send_err then
    match s.send_short with
    | none => ⟨-1, s⟩
    | some k => ⟨((min k len : Nat) : Int), { s with outbox := s.outbox ++ [msg.take (min k len)] }⟩
  else ⟨(len : Int), { s with outbox := s.outbox ++ [msg.take len] }⟩

/-- The conversion of an `int` to the 64-bit `size_t` that C applies before it
compares an `int` with a `size_t`: the value is reduced modulo `2^64`, so `-1`
becomes `2^64 - 1`. -/
def size_t_of_int (v : Int) : Nat := (v % 18446744073709551616).toNat

/-- The `do ... while (PURGE_BUFFER_SIZE < bytes_read)` loop of `purge_socket`
(serv_lib.c 157-160). -/
def purge_loop (s : Sock) (purge_buffer : List Nat) : Sock :=
  let r := recv s purge_buffer (PURGE_BUFFER_SIZE + 1) false
  if _h : (PURGE_BUFFER_SIZE : Int) < r.ret then purge_loop r.sock r.buf else r.sock
termination_by s.queue.length
decreasing_by
  have h2 : ((PURGE_BUFFER_SIZE : Nat) : Int) <
      (recv s purge_buffer (PURGE_BUFFER_SIZE + 1) false).ret := _h
  unfold recv at h2 ⊢
  by_cases e : s.recv_err = true
  · simp [e, PURGE_BUFFER_SIZE] at h2
  · by_cases q : s.queue.isEmpty = true
    · simp [e, q, PURGE_BUFFER_SIZE] at h2
      split at h2 <;> omega
    · simp [e, q, PURGE_BUFFER_SIZE] at h2 ⊢
      omega

/-- Source `purge_socket` (serv_lib.c 147-162): switch to non-blocking, drain
257 bytes at a time until a receive returns at most 256, switch back to
blocking. -/
def purge_socket (s : Sock) : Sock :=
  let purge_buffer := List.replicate (PURGE_BUFFER_SIZE + 1) 0
  let s1 := { s with nonblock := true }
  let s2 := purge_loop s1 purge_buffer
  { s2 with nonblock := false }

/-- What `read_from_client` leaves behind: return value, buffer, socket. -/
structure ReadResult where
  status : Int
  buf : List Nat
  sock : Sock
deriving DecidableEq, Repr

/-- The notice of serv_lib.c 194-195. -/
def message_too_long : List Nat :=
  str_bytes "Received message longer than 100 characters. Flushing excess.\n"

/-- The first receive of `read_from_client` (serv_lib.c 183-186): a peek of up
to `MAX_BUFFER_SIZE + 1` bytes; its return value is
`pending_socket_buffer_length`. -/
def peek_recv (s : Sock) (p_buffer : List Nat) : RecvResult :=
  recv s p_buffer (MAX_BUFFER_SIZE + 1) true

/-- The consuming receive of `read_from_client` (serv_lib.c 189-190), after
the last byte of the buffer has been set to NUL; its return value is
`bytes_read`. -/
def consume_recv (s : Sock) (p_buffer : List Nat) : RecvResult :=
  let pk := peek_recv s p_buffer
  recv pk.sock (pk.buf.set MAX_BUFFER_SIZE 0) MAX_BUFFER_SIZE false

/-- The classification at the end of `read_from_client` (serv_lib.c 210-227). -/
def read_status (bytes_read : Int) (p_buffer : List Nat) (s : Sock) : ReadResult :=
  if 0 > bytes_read then ⟨SOCK_READ_ERROR, p_buffer, s⟩
  else if 0 = bytes_read then ⟨SOCK_CLIENT_DISCONNECT, p_buffer, s⟩
  else ⟨SOCK_READ_SUCCESS, sanitize_input_string p_buffer, s⟩

/-- Source `read_from_client` (serv_lib.c 176-228). The test of line 200
compares the `size_t` result of `strnlen` with the `int` result of `send`, so
the `int` is converted to `size_t` first. -/
def read_from_client (s : Sock) (p_buffer : List Nat) : ReadResult :=
  let pending_socket_buffer_length := (peek_recv s p_buffer).ret
  let rd := consume_recv s p_buffer
  let bytes_read := rd.ret
  if (MAX_BUFFER_SIZE : Int) < pending_socket_buffer_length then
    let sn := send rd.sock message_too_long (strnlen message_too_long MAX_BUFFER_SIZE)
    if strnlen message_too_long MAX_BUFFER_SIZE > size_t_of_int sn.ret then
      ⟨SOCK_SEND_ERROR, rd.buf, sn.sock⟩
    else read_status bytes_read rd.buf (purge_socket sn.sock)
  else read_status bytes_read rd.buf rd.sock

/-- The message of serv_lib.c 248 and 266. -/
def server_error_message : List Nat := str_bytes "Server error. Disconnecting client.\n"

/-- The message of serv_lib.c 281-282. -/
def equation_error_message : List Nat :=
  str_bytes "An error occurred processing the given equation."

/-- The `response` array of serv_lib.c 297-302: `sprintf` of the format
`"The answer to the given equation is [%f]"` with `answer = 1.0`, in a
zero-filled array of `MAX_BUFFER_SIZE` bytes. -/
def response : List Nat :=
  let text := str_bytes "The answer to the given equation is [1.000000]"
  text ++ List.replicate (MAX_BUFFER_SIZE - text.length) 0

/-- Source `handle_client` (serv_lib.c 237-317). `alloc_ok` tells whether
`calloc` returned a buffer. The result is `is_connected` and the socket. The
tests of lines 287 and 307 compare a `size_t` with the `int` result of `send`,
so the `int` is converted to `size_t` first. -/
def handle_client (client : Sock) (alloc_ok : Bool) : Bool × Sock :=
  if !alloc_ok then
    let sn := send client server_error_message (strnlen server_error_message MAX_BUFFER_SIZE)
    (false, sn.sock)
  else
    let p_buffer := List.replicate (MAX_BUFFER_SIZE + 1) 0
    let rr := read_from_client client p_buffer
    if 0 > rr.status then
      let sn := send rr.sock server_error_message (strnlen server_error_message MAX_BUFFER_SIZE)
      (false, sn.sock)
    else
      let errno : Int := 0
      if EINVAL = errno then
        let sn := send rr.sock equation_error_message
          (strnlen equation_error_message MAX_BUFFER_SIZE)
        if strnlen equation_error_message MAX_BUFFER_SIZE > size_t_of_int sn.ret then
          (false, sn.sock)
        else (true, sn.sock)
      else
        let sn := send rr.sock response (strnlen response MAX_BUFFER_SIZE)
        if strnlen response MAX_BUFFER_SIZE > size_t_of_int sn.ret then (false, sn.sock)
        else (true, sn.sock)

/-! ## The shared server state -/

/-- Calls into the C library that other threads or the peer can observe, and
stores to the flag `b_running` that the threads poll. -/
inductive Event where
  | store_running (b : Bool)
  | calloc_thread_ids
  | mutex_init
  | cond_init
  | thread_create (i : Nat)
  | sem_init (value : Int)
  | send (fd : Int) (msg : List Nat)
  | close (fd : Int)
  | cond_signal
  | cond_broadcast
  | sem_post (w : Nat)
  | thread_join (i : Nat)
  | sem_getvalue
  | sem_destroy
  | mutex_destroy
  | cond_destroy
  | free_thread_ids
deriving DecidableEq, Repr

/-- Source `serv_t` (serv_lib.h 13-23). `client_count_sem` is the value of the
semaphore, `new_connection_fd` the mailbox slot (`0` is empty), `log` the
events so far, oldest first. -/
structure Serv where
  b_running : Bool
  max_connections : Int
  client_count_sem : Int
  new_connection_fd : Int
  log : List Event
deriving DecidableEq, Repr

/-- Append events to the log. -/
def Serv.emit (p : Serv) (es : List Event) : Serv := { p with log := p.log ++ es }

/-- POSIX `sem_trywait` on a semaphore of value `v`: with `v > 0` it returns `0`
and decrements, otherwise it returns `-1` and leaves the value alone. The
result is the return value and the new semaphore value. -/
def sem_trywait (v : Int) : Int × Int := if 0 < v then (0, v - 1) else (-1, v)

/-- POSIX `sem_post` on a semaphore of value `v`. -/
def sem_post (v : Int) : Int := v + 1

/-- The message of serv_lib.c 326. -/
def max_connections_message : List Nat :=
  str_bytes "Unable to accept connection. Try again later.\n"

/-- Source `notify_client_max_connections` (serv_lib.c 324-331): one `send`
whose result is ignored. -/
def notify_client_max_connections (client_fd : Int) (p : Serv) : Serv :=
  p.emit [Event.send client_fd
    (max_connections_message.take (strnlen max_connections_message MAX_BUFFER_SIZE))]

/-- First effects of `shutdown_server` on a running server (serv_lib.c 390-391):
clear the flag, broadcast on the mailbox condition variable. -/
def shutdown_begin (p : Serv) : Serv :=
  { p with b_running := false,
           log := p.log ++ [Event.store_running false, Event.cond_broadcast] }

/-- The join loop of `shutdown_server` (serv_lib.c 393-400), from index `i`
with `todo` iterations left. A negative result of `pthread_join` is only
printed. -/
def join_threads (p : Serv) : Nat → Nat → Serv
  | _, 0 => p
  | i, todo + 1 => join_threads (p.emit [Event.thread_join i]) (i + 1) todo

/-- Source `shutdown_server` (serv_lib.c 379-429). The loop runs for
`i = 0 .. max_connections - 1`. Negative results of the destroy calls are only
printed. -/
def shutdown_server (p : Serv) : Serv :=
  if false = p.b_running then p
  else
    let p1 := shutdown_begin p
    let p2 := join_threads p1 0 p1.max_connections.toNat
    p2.emit [Event.sem_getvalue, Event.sem_destroy, Event.mutex_destroy, Event.cond_destroy,
      Event.free_thread_ids]

/-- Return values of the library calls made by `init_server`. -/
structure InitEnv where
  mutex_init : Int
  cond_init : Int
  thread_create : Nat → Int
  sem_init : Int

/-- The thread-creation loop of `init_server` (serv_lib.c 464-478), from index
`i` with `todo` iterations left; `false` when a creation reported `err < 0`. -/
def create_threads (env : InitEnv) (p : Serv) : Nat → Nat → Bool × Serv
  | _, 0 => (true, p)
  | i, todo + 1 =>
    let p1 := p.emit [Event.thread_create i]
    if 0 > env.thread_create i then (false, p1) else create_threads env p1 (i + 1) todo

/-- Source `init_server` (serv_lib.c 438-491). -/
def init_server (env : InitEnv) (p : Serv) : Int × Serv :=
  let p0 := { p with b_running := true,
                     log := p.log ++ [Event.store_running true, Event.calloc_thread_ids] }
  let p1 := p0.emit [Event.mutex_init]
  if 0 > env.mutex_init then (SERV_INIT_FAILURE, shutdown_server p1)
  else
    let p2 := p1.emit [Event.cond_init]
    if 0 > env.cond_init then (SERV_INIT_FAILURE, shutdown_server p2)
    else
      let ct := create_threads env p2 0 p2.max_connections.toNat
      if !ct.1 then (SERV_INIT_FAILURE, shutdown_server ct.2)
      else
        let p3 := ct.2.emit [Event.sem_init ct.2.max_connections]
        if 0 > env.sem_init then (SERV_INIT_FAILURE, shutdown_server p3)
        else (SERV_INIT_SUCCESS, { p3 with client_count_sem := p3.max_connections })

/-- An environment in which every call of `init_server` succeeds. -/
def init_ok : InitEnv := ⟨0, 0, fun _ => 0, 0⟩

/-- The global `g_serv = { 0 }` of server.c 24 after `max_connections` has been
stored (server.c 85). -/
def g_serv (thread_count : Int) : Serv := ⟨false, thread_count, 0, 0, []⟩

/-! ## The acceptor and the workers as a transition system -/

/-- Where the acceptor stands in the `while` loop of `main` (server.c 165-206). -/
inductive AcceptorPc where
  | loop_head
  | in_accept
  | admitted (client_fd : Int)
  | finished
deriving DecidableEq, Repr

/-- Where a worker stands in `thread_handler` (serv_lib.c 339-373). -/
inductive WorkerPc where
  | loop_head
  | waiting
  | serving (thread_client_fd : Int)
  | closing (thread_client_fd : Int)
  | posting
  | stopped
deriving DecidableEq, Repr

/-- The whole server: shared state, acceptor, workers. -/
structure Sys where
  serv : Serv
  acceptor : AcceptorPc
  workers : List WorkerPc
deriving DecidableEq, Repr

/-- One atomic step of one thread; what the environment decides is an
argument. -/
inductive Action where
  | acceptor_check
  | accept (client_fd : Int)
  | publish
  | worker_check (w : Nat)
  | take (w : Nat)
  | serve (w : Nat) (client : Sock) (alloc_ok : Bool)
  | close (w : Nat)
  | post (w : Nat)
  | interrupt
deriving DecidableEq, Repr

/-- The acceptor evaluates `while (g_serv.b_running)` (server.c 165). -/
def acceptor_check (s : Sys) : Sys :=
  match s.acceptor with
  | AcceptorPc.loop_head =>
    if s.serv.b_running then { s with acceptor := AcceptorPc.in_accept }
    else { s with acceptor := AcceptorPc.finished }
  | _ => s

/-- The handshake byte of server.c 194. -/
def handshake_byte : List Nat := str_bytes "0"

/-- The call `accept` returns `client_fd`, and the acceptor runs server.c 171-195:
a negative descriptor goes back to the loop head; otherwise `sem_trywait`, and
on failure notice and close, on success the handshake `send`. -/
def acceptor_accept (s : Sys) (client_fd : Int) : Sys :=
  match s.acceptor with
  | AcceptorPc.in_accept =>
    if 0 > client_fd then { s with acceptor := AcceptorPc.loop_head }
    else
      let tw := sem_trywait s.serv.client_count_sem
      if 0 > tw.1 then
        { s with serv := (notify_client_max_connections client_fd s.serv).emit
                   [Event.close client_fd],
                 acceptor := AcceptorPc.loop_head }
      else
        { s with serv := { s.serv with client_count_sem := tw.2,
                                       log := s.serv.log ++
                                         [Event.send client_fd (handshake_byte.take 1)] },
                 acceptor := AcceptorPc.admitted client_fd }
  | _ => s

/-- The mutex-protected store of server.c 199-205. -/
def acceptor_publish (s : Sys) : Sys :=
  match s.acceptor with
  | AcceptorPc.admitted client_fd =>
    let p1 := { s.serv with new_connection_fd := client_fd }
    let p2 := if 0 ≠ p1.new_connection_fd then p1.emit [Event.cond_signal] else p1
    { s with serv := p2, acceptor := AcceptorPc.loop_head }
  | _ => s

/-- The mutex-protected section of `thread_handler` once the wait is over
(serv_lib.c 352-353): the value taken and the state left. -/
def take (p : Serv) : Int × Serv := (p.new_connection_fd, { p with new_connection_fd := 0 })

/-- Worker `w` evaluates `while (p_serv->b_running)` (serv_lib.c 344). -/
def worker_check (s : Sys) (w : Nat) : Sys :=
  match s.workers[w]? with
  | some WorkerPc.loop_head =>
    if s.serv.b_running then { s with workers := s.workers.set w WorkerPc.waiting }
    else { s with workers := s.workers.set w WorkerPc.stopped }
  | _ => s

/-- Worker `w` holds the mutex at the inner `while` (serv_lib.c 346-361). While
the slot is empty and the server runs it stays in `pthread_cond_wait`;
otherwise it takes the slot, and goes on to serve, or back to the loop head
when it took `0`. -/
def worker_take (s : Sys) (w : Nat) : Sys :=
  match s.workers[w]? with
  | some WorkerPc.waiting =>
    if 0 = s.serv.new_connection_fd && s.serv.b_running then s
    else
      let t := take s.serv
      if 0 = t.1 then { s with serv := t.2, workers := s.workers.set w WorkerPc.loop_head }
      else { s with serv := t.2, workers := s.workers.set w (WorkerPc.serving t.1) }
  | _ => s

/-- Worker `w` runs one round of `while (thread_client_connected)`
(serv_lib.c 364-367) on the socket as the environment presents it. -/
def worker_serve (s : Sys) (w : Nat) (client : Sock) (alloc_ok : Bool) : Sys :=
  match s.workers[w]? with
  | some (WorkerPc.serving fd) =>
    if (handle_client client alloc_ok).1 then s
    else { s with workers := s.workers.set w (WorkerPc.closing fd) }
  | _ => s

/-- Worker `w` closes its descriptor (serv_lib.c 368-369). -/
def worker_close (s : Sys) (w : Nat) : Sys :=
  match s.workers[w]? with
  | some (WorkerPc.closing fd) =>
    { s with serv := s.serv.emit [Event.close fd], workers := s.workers.set w WorkerPc.posting }
  | _ => s

/-- Worker `w` releases its permit (serv_lib.c 370). -/
def worker_post (s : Sys) (w : Nat) : Sys :=
  match s.workers[w]? with
  | some WorkerPc.posting =>
    { s with serv := { s.serv with client_count_sem := sem_post s.serv.client_count_sem,
                                   log := s.serv.log ++ [Event.sem_post w] },
             workers := s.workers.set w WorkerPc.loop_head }
  | _ => s

/-- An interrupt arrives on a running server: the first effects of
`shutdown_server`. -/
def interrupt (s : Sys) : Sys :=
  if false = s.serv.b_running then s else { s with serv := shutdown_begin s.serv }

/-- One step of the system. An action that its thread cannot take in the
current state leaves the state as it is. -/
def step (s : Sys) : Action → Sys
  | Action.acceptor_check => acceptor_check s
  | Action.accept client_fd => acceptor_accept s client_fd
  | Action.publish => acceptor_publish s
  | Action.worker_check w => worker_check s w
  | Action.take w => worker_take s w
  | Action.serve w client alloc_ok => worker_serve s w client alloc_ok
  | Action.close w => worker_close s w
  | Action.post w => worker_post s w
  | Action.interrupt => interrupt s

/-- Run a schedule. -/
def run (s : Sys) (acts : List Action) : Sys := acts.foldl step s

/-- The system right after a successful `init_server` with `thread_count`
workers (server.c 85, 163). -/
def init_sys (thread_count : Int) : Sys :=
  { serv := (init_server init_ok (g_serv thread_count)).2,
    acceptor := AcceptorPc.loop_head,
    workers := List.replicate thread_count.toNat WorkerPc.loop_head }

/-- Weight of a worker in the admission count: `1` while it holds a connection
whose permit it has not yet released. -/
def WorkerPc.holds : WorkerPc → Int
  | WorkerPc.serving _ => 1
  | WorkerPc.closing _ => 1
  | WorkerPc.posting => 1
  | _ => 0

/-- Weight of the acceptor in the admission count: `1` while it holds an
admitted connection that it has not yet published. -/
def AcceptorPc.holds : AcceptorPc → Int
  | AcceptorPc.admitted _ => 1
  | _ => 0

/-- Weight of the mailbox slot in the admission count: `1` while it is occupied. -/
def slot_holds (new_connection_fd : Int) : Int := if new_connection_fd = 0 then 0 else 1

/-- Number of admitted connections that still hold a permit: the one in the
acceptor's hand, the one in the slot, and those held by workers. -/
def in_flight (s : Sys) : Int :=
  s.acceptor.holds + slot_holds s.serv.new_connection_fd + (s.workers.map WorkerPc.holds).sum

/-- The admission invariant for capacity `cap`: the semaphore is not negative,
and permits available plus permits held never exceed the capacity. -/
def admission_inv (cap : Int) (s : Sys) : Prop :=
  0 ≤ s.serv.client_count_sem ∧ s.serv.client_count_sem + in_flight s ≤ cap

/-- The schedule of one whole session of worker `w`, after admission: the
acceptor publishes, worker `w` takes, runs `handle_client` once per round on
the sockets given, then closes and releases. -/
def session_schedule (w : Nat) (rounds : List (Sock × Bool)) (last : Sock × Bool) :
    List Action :=
  [Action.publish, Action.take w] ++ rounds.map (fun r => Action.serve w r.1 r.2) ++
  [Action.serve w last.1 last.2, Action.close w, Action.post w]

/-- The schedule in which two connections are accepted back to back and no
worker runs in between: descriptor 4 is admitted and published, descriptor 5 is
admitted. -/
def two_accepts : List Action :=
  [Action.acceptor_check, Action.accept 4, Action.publish, Action.acceptor_check,
    Action.accept 5]

/-- The test of serv_lib.c 200 holds: the result of the `send` of the
over-length notice, converted to `size_t`, is below the length of the notice. -/
@[reducible] def notice_send_short (s : Sock) (p_buffer : List Nat) : Prop :=
  strnlen message_too_long MAX_BUFFER_SIZE >
    size_t_of_int (send (consume_recv s p_buffer).sock message_too_long
      (strnlen message_too_long MAX_BUFFER_SIZE)).ret

/-- A socket with 101 bytes `'#'` pending on which `send` fails with `-1`. -/
def long_request_send_fails : Sock := ⟨List.replicate 101 35, false, true, false, [], none⟩

/-- Descriptor `fd` is out of the server's reach: the acceptor does not hold
it, the slot does not hold it, no worker serves or closes it, and it has not
been closed. -/
@[reducible] def handle_lost (fd : Int) (s : Sys) : Prop :=
  s.acceptor ≠ AcceptorPc.admitted fd ∧ s.serv.new_connection_fd ≠ fd ∧
  (∀ pc ∈ s.workers, pc ≠ WorkerPc.serving fd ∧ pc ≠ WorkerPc.closing fd) ∧
  Event.close fd ∉ s.serv.log

/-- The event destroys a synchronisation object. -/
def Event.is_destroy : Event → Bool
  | Event.sem_destroy => true
  | Event.mutex_destroy => true
  | Event.cond_destroy => true
  | _ => false

/-- The event joins a worker thread. -/
def Event.is_join : Event → Bool
  | Event.thread_join _ => true
  | _ => false

/-- The shutdown order in the words of the specification, for `capacity`
workers: flag flip, broadcast, one join per worker in index order, and then
the release of the semaphore (after its value is read for a message), the
mutex, the condition variable and the thread-id array. -/
def spec_shutdown_order (capacity : Nat) : List Event :=
  [Event.store_running false, Event.cond_broadcast] ++
  (List.range capacity).map Event.thread_join ++
  [Event.sem_getvalue, Event.sem_destroy, Event.mutex_destroy, Event.cond_destroy,
    Event.free_thread_ids]

/-! ## Start-up of the server process -/

/-- The value of `EXIT_SUCCESS` in `stdlib.h`. -/
def EXIT_SUCCESS : Int := 0

/-- The value of `EXIT_FAILURE` in `stdlib.h`. -/
def EXIT_FAILURE : Int := 1

/-- The value of `ENOMEM` in `errno.h`, one of the error numbers that
`pthread_mutex_init` returns when it fails. -/
def ENOMEM : Int := 12

/-- How `main` of server.c goes on from the call of `init_server`:
the shared state, whether the accept loop is entered, and the exit status once
`main` has ended. -/
structure ServerStart where
  serv : Serv
  enters_loop : Bool
  exit_status : Option Int
deriving DecidableEq, Repr

/-- Source `main` of server.c from line 163 to its end, up to the first
evaluation of `while (g_serv.b_running)`. The value of `init_server` is
discarded (server.c 163). When the flag is true the accept loop is entered.
When it is false the loop is skipped, `shutdown_server` is called
(server.c 208) and control reaches the closing brace of `main`, which ends the
process with status `0` (C99 5.1.2.2.3). -/
def main_start (env : InitEnv) (thread_count : Int) : ServerStart :=
  let r := init_server env (g_serv thread_count)
  if r.2.b_running then ⟨r.2, true, none⟩
  else ⟨shutdown_server r.2, false, some 0⟩

/-- An environment in which `sem_init` fails (it returns `-1`) and every
other call succeeds. -/
def init_sem_fails : InitEnv := ⟨0, 0, fun _ => 0, -1⟩

/-- An environment in which `pthread_mutex_init` fails (it returns the error
number `ENOMEM`) and every other call succeeds. -/
def init_mutex_fails : InitEnv := ⟨ENOMEM, 0, fun _ => 0, 0⟩

/-! ## Command-line numbers -/

/-- The value of `INT_MAX` in `limits.h` (32-bit `int`). -/
def INT_MAX : Int := 2147483647

/-- The value of `LONG_MAX` in `limits.h` (64-bit `long`). -/
def LONG_MAX : Int := 9223372036854775807

/-- The value of `LONG_MIN` in `limits.h` (64-bit `long`). -/
def LONG_MIN : Int := -9223372036854775808

/-- The value of `ERANGE` in `errno.h`. -/
def ERANGE : Int := 34

/-- C library `isspace` in the C locale: space, or one of `\t \n \v \f \r`. -/
def isspace (c : Nat) : Bool := c == 32 || (decide (9 ≤ c) && decide (c ≤ 13))

/-- Value of a run of decimal digit bytes, most significant first. -/
def digits_value (ds : List Nat) : Nat := ds.foldl (fun acc d => 10 * acc + (d - 48)) 0

/-- What `strtol` leaves behind: the value returned and `errno`. -/
structure StrtolResult where
  value : Int
  errno : Int
deriving DecidableEq, Repr

/-- The sign that `strtol` reads: negative when the text starts with `'-'`. -/
def strtol_negative : List Nat → Bool
  | 45 :: _ => true
  | _ => false

/-- The text that `strtol` reads after an optional sign `'-'` or `'+'`. -/
def strtol_body : List Nat → List Nat
  | 45 :: r => r
  | 43 :: r => r
  | r => r

/-- C library `strtol(nptr, &end, 10)`, called with `errno = 0`: skip white
space, read an optional sign, read the longest run of decimal digits. Without
digits the value is `0`. A value outside the range of `long` is replaced by
`LONG_MAX` or `LONG_MIN` and `errno` becomes `ERANGE`. -/
def strtol (nptr : List Nat) : StrtolResult :=
  let s := (cstr nptr).dropWhile isspace
  let negative := strtol_negative s
  let body := strtol_body s
  let magnitude : Int := (digits_value (body.takeWhile isdigit) : Nat)
  let v := if negative then -magnitude else magnitude
  if LONG_MAX < v then ⟨LONG_MAX, ERANGE⟩
  else if v < LONG_MIN then ⟨LONG_MIN, ERANGE⟩
  else ⟨v, 0⟩

/-- The conversion of a `long` to a 32-bit `int` in an initialisation such as
`int val = strtol(...)`: the value is reduced modulo `2^32` into the range of
`int`. -/
def int_of_long (v : Int) : Int := (v + 2147483648) % 4294967296 - 2147483648

/-- Source `convert_port_number` of serv_lib.c (47-84). `none` is the NULL
pointer. -/
def convert_port_number (p_string : Option (List Nat)) : Int :=
  match p_string with
  | none => INVALID_PORT
  | some str =>
    let str1 := if 5 < strnlen str 6 then str.set 5 0 else str
    let r := strtol str1
    let port_number := int_of_long r.value
    if 0 ≠ r.errno then INVALID_PORT
    else if 0 ≥ port_number ∨ 65535 < port_number then INVALID_PORT
    else port_number

/-- Source `convert_port_number` of cli_lib.c (20-57). The constant
`INVALID_PORT` comes from `cli_lib.h`, which is not among the sources, and is
an argument here. -/
def cli_convert_port_number (cli_INVALID_PORT : Int) (p_string : Option (List Nat)) : Int :=
  match p_string with
  | none => cli_INVALID_PORT
  | some str =>
    let str1 := if 5 < strnlen str 6 then str.set 5 0 else str
    let r := strtol str1
    let port_number := int_of_long r.value
    if 0 ≠ r.errno then cli_INVALID_PORT
    else if 0 ≥ port_number ∨ 65535 < port_number then cli_INVALID_PORT
    else port_number

/-- Source `convert_thread_count` (serv_lib.c 86-111). `none` is the NULL
pointer. -/
def convert_thread_count (p_string : Option (List Nat)) : Int :=
  match p_string with
  | none => INVALID_PORT
  | some str =>
    let r := strtol str
    let val := int_of_long r.value
    if 0 ≠ r.errno then MIN_THREADS
    else if MIN_THREADS > val then MIN_THREADS else val

/-- The bytes form a decimal numeral: at least one byte, all of them digits. -/
@[reducible] def is_numeral (ds : List Nat) : Prop := ds ≠ [] ∧ ∀ c ∈ ds, isdigit c = true

/-! ## The client -/

/-- The placeholder request of client.c 133 and 166. -/
def placeholder_request : List Nat := str_bytes "3 2 -"

/-- Source `send_postfix` (cli_lib.c 112-153). `none` is the NULL pointer. The
constant `MAX_BUFFER_SIZE` of the client comes from `cli_lib.h`, which is not
among the sources, and is an argument here. The result is the return value
and the socket. The test of line 125 compares a `size_t` with the `int` result
of `send`, so the `int` is converted to `size_t` first. -/
def send_postfix (cli_MAX_BUFFER_SIZE : Nat) (p_string : Option (List Nat)) (conn : Sock) :
    Bool × Sock :=
  match p_string with
  | none => (false, conn)
  | some msg =>
    let sn := send conn msg (strnlen msg cli_MAX_BUFFER_SIZE)
    if strnlen msg cli_MAX_BUFFER_SIZE > size_t_of_int sn.ret then (false, sn.sock)
    else
      let rc := recv sn.sock (List.replicate cli_MAX_BUFFER_SIZE 0) cli_MAX_BUFFER_SIZE false
      if 0 = rc.ret then (false, rc.sock)
      else if 0 > rc.ret then (false, rc.sock)
      else (true, rc.sock)

/-- The handshake receive of client.c 112-113: one byte into the zeroed array
`buff`. -/
def handshake_recv (conn : Sock) : RecvResult := recv conn [0, 0] 1 false

/-- The handshake test of client.c 115, `'0' != buff[0] && 1 != err`. -/
def handshake_rejected (conn : Sock) : Bool :=
  decide (48 ≠ (handshake_recv conn).buf.headD 0) && decide (1 ≠ (handshake_recv conn).ret)

/-- How the client process ends: exit status, socket, whether the socket was
closed, whether the handshake error was reported. -/
structure ClientEnd where
  exit_status : Int
  conn : Sock
  closed : Bool
  handshake_error : Bool
deriving DecidableEq, Repr

/-- Source `main` of client.c from the handshake (line 112) to its end, when an
expression was given with `-e` (`p_infix_string` is not NULL). -/
def client_main_one_shot (cli_MAX_BUFFER_SIZE : Nat) (conn : Sock)
    (p_infix_string : List Nat) : ClientEnd :=
  let hs := handshake_recv conn
  if handshake_rejected conn then ⟨EXIT_FAILURE, hs.sock, true, true⟩
  else if cli_MAX_BUFFER_SIZE < (cstr p_infix_string).length then
    ⟨EXIT_FAILURE, hs.sock, false, false⟩
  else
    let sp := send_postfix cli_MAX_BUFFER_SIZE (some placeholder_request) hs.sock
    if false = sp.1 then ⟨EXIT_FAILURE, sp.2, true, false⟩
    else ⟨EXIT_SUCCESS, sp.2, true, false⟩

/-- The handshake rule in the words of the specification: the client goes on
exactly when one byte was received and that byte is `'0'`. -/
@[reducible] def spec_handshake_ok (conn : Sock) : Prop :=
  (handshake_recv conn).ret = 1 ∧ (handshake_recv conn).buf.headD 0 = 48

/-- The connection of a client that the server has turned away: the capacity
notice is all that arrives. -/
def overload_conn : Sock := ⟨max_connections_message, false, false, false, [], none⟩

/-! ## Connections that nobody holds -/

/-- Recognises the `sem_post` of any worker. -/
def Event.is_sem_post : Event → Bool
  | Event.sem_post _ => true
  | _ => false

/-- Recognises a return of the call `accept`. -/
def Action.is_accept : Action → Bool
  | Action.accept _ => true
  | _ => false

/-- No admitted connection is held anywhere: not in the acceptor's hand, not
in the slot, by no worker. -/
@[reducible] def nothing_held (s : Sys) : Prop :=
  s.acceptor.holds = 0 ∧ s.serv.new_connection_fd = 0 ∧ ∀ pc ∈ s.workers, pc.holds = 0

/-- A connection whose peer has shut down: a blocking socket with nothing
pending. -/
def peer_gone : Sock := ⟨[], false, false, false, [], none⟩

/-- A connection with the request `"1+2\n"` pending on which every `send` fails
with `-1`. -/
def request_send_fails : Sock := ⟨str_bytes "1+2\n", false, true, false, [], none⟩

/-- A connection with the request `"1+2\n"` pending on which every `send`
delivers no more than 3 bytes. -/
def request_send_short : Sock := ⟨str_bytes "1+2\n", false, true, false, [], some 3⟩

/-- The schedule in which descriptor 4 is admitted and published, descriptor 5
is admitted and published before any worker has run, and worker 0 then takes
the slot, finds its peer gone, closes and releases. -/
def overwrite_then_session : List Action :=
  two_accepts ++ [Action.publish, Action.worker_check 0, Action.take 0,
    Action.serve 0 peer_gone true, Action.close 0, Action.post 0]

/-! ## The command line of the server -/

/-- The argument that `main` hands to `convert_thread_count` (server.c 56,
65-67, 84): `p_thread_count` starts as `"2"` and is replaced by the argument of
a `-n` option, which `getopt` never leaves NULL. `n_optarg` is the argument of
the last `-n` option, `none` when the command line has none. -/
def main_thread_count (n_optarg : Option (List Nat)) : Int :=
  let p_thread_count := match n_optarg with
    | none => str_bytes "2"
    | some optarg => optarg
  convert_thread_count (some p_thread_count)

/-- The test of server.c 75-76 on the port argument: true when `main` prints
the usage line and returns `EXIT_FAILURE`. -/
def main_rejects_port (p_port_number : Option (List Nat)) : Bool :=
  let port_number := convert_port_number p_port_number
  decide (0 > port_number)

/-! # Theorems -/

/-! ## Sanitising -/

/-- On one byte that is neither NUL nor newline, the loop body of
`sanitize_input_string` writes what the specification's byte rule says. -/
theorem sanitize_byte_eq (c : Nat) :
    (if (!isdigit c && !is_operator c && c != 46) = true then 32 else c) = spec_sanitize_char c := by
  unfold isdigit is_operator spec_sanitize_char
  by_cases h : ((48 ≤ c ∧ c ≤ 57) ∨ c = 43 ∨ c = 45 ∨ c = 42 ∨ c = 47 ∨ c = 37 ∨ c = 46)
  · rw [if_pos h, if_neg]
    simp only [Bool.and_eq_true, Bool.not_eq_true', Bool.or_eq_true, decide_eq_true_eq,
      bne_iff_ne, ne_eq, ite_eq_right_iff, Bool.true_eq_false, imp_false, not_or,
      Bool.and_eq_false_imp, decide_eq_false_iff_not, not_and, not_le, not_not, Bool.decide_and,
      Bool.not_and, Bool.or_eq_false_iff]
    omega
  · rw [if_neg h, if_pos]
    simp only [Bool.and_eq_true, Bool.not_eq_true', Bool.or_eq_true, decide_eq_true_eq,
      bne_iff_ne, ne_eq, ite_eq_right_iff, Bool.true_eq_false, imp_false, not_or,
      Bool.and_eq_false_imp, decide_eq_false_iff_not, not_and, not_le, not_not, Bool.decide_and,
      Bool.not_and, Bool.or_eq_false_iff]
    omega

/-- C8: for every buffer, the C string left by `sanitize_input_string` is the
input C string cut at its first newline, with every byte that is not a decimal
digit, not one of `+ - * / %` and not a dot replaced by a space and every other
byte kept; `"3 + 5\nGARBAGE"` becomes `"3 + 5"` and `"12#34"` becomes `"12 34"`. -/
theorem sanitize_input_string_spec (buf : List Nat) :
    cstr (sanitize_input_string buf) = spec_sanitize (cstr buf) ∧
    cstr (sanitize_input_string (str_bytes "3 + 5\nGARBAGE" ++ [0])) = str_bytes "3 + 5" ∧
    cstr (sanitize_input_string (str_bytes "12#34" ++ [0])) = str_bytes "12 34" := by
  refine ⟨?_, by decide, by decide⟩
  induction buf with
  | nil => rfl
  | cons c rest ih =>
    unfold sanitize_input_string
    by_cases h0 : c = 0
    · subst h0
      simp [cstr, spec_sanitize]
    · by_cases h10 : c = 10
      · subst h10
        simp [cstr, spec_sanitize]
      · have hb := sanitize_byte_eq c
        have ih2 : List.takeWhile (fun c => c != 0) (sanitize_input_string rest) =
            spec_sanitize (List.takeWhile (fun c => c != 0) rest) := ih
        by_cases hk : (!isdigit c && !is_operator c && c != 46) = true
        · rw [if_pos hk] at hb
          simp only [h0, h10, hk, if_true, if_false]
          simp [cstr, spec_sanitize, h0, h10, ← hb, ih2]
        · rw [if_neg hk] at hb
          simp only [h0, h10, hk, if_false]
          simp [cstr, spec_sanitize, h0, h10, ← hb, ih2]

/-! ## The mailbox slot -/

/-- Only `publish` can make an empty slot non-empty. -/
theorem step_keeps_slot_empty (s : Sys) (a : Action) (ha : a ≠ Action.publish)
    (h0 : s.serv.new_connection_fd = 0) : (step s a).serv.new_connection_fd = 0 := by
  cases a with
  | publish => exact absurd rfl ha
  | acceptor_check =>
    simp only [step, acceptor_check]
    split
    · split <;> exact h0
    · exact h0
  | accept client_fd =>
    simp only [step, acceptor_accept]
    split
    · split
      · exact h0
      · split <;> simpa [notify_client_max_connections, Serv.emit] using h0
    · exact h0
  | worker_check w =>
    simp only [step, worker_check]
    split
    · split <;> exact h0
    · exact h0
  | take w =>
    simp only [step, worker_take]
    split
    · split
      · exact h0
      · split <;> simp [take]
    · exact h0
  | serve w client alloc_ok =>
    simp only [step, worker_serve]
    split
    · split <;> exact h0
    · exact h0
  | close w =>
    simp only [step, worker_close]
    split
    · simpa [Serv.emit] using h0
    · exact h0
  | post w =>
    simp only [step, worker_post]
    split
    · simpa using h0
    · exact h0
  | interrupt =>
    simp only [step, interrupt]
    split
    · exact h0
    · simpa [shutdown_begin] using h0

/-- A schedule without `publish` keeps an empty slot empty. -/
theorem run_keeps_slot_empty (acts : List Action) (s : Sys)
    (hacts : ∀ a ∈ acts, a ≠ Action.publish) (h0 : s.serv.new_connection_fd = 0) :
    (run s acts).serv.new_connection_fd = 0 := by
  induction acts generalizing s with
  | nil => exact h0
  | cons a rest ih =>
    have h1 := step_keeps_slot_empty s a (hacts a (List.mem_cons_self a rest)) h0
    exact ih (step s a) (fun b hb => hacts b (List.mem_cons_of_mem a hb)) h1

/-- C5: the take step returns exactly the value the slot held and leaves the
slot empty; a waiting worker that finds a handle in the slot serves that
handle, and after its take every take that follows with no publish in between
obtains the empty value `0`, so no two takes obtain the same non-empty handle;
in every state of the shared structure a take directly after a take obtains `0`. -/
theorem take_returns_slot_and_empties_it (s : Sys) (w : Nat) (acts : List Action)
    (hacts : ∀ a ∈ acts, a ≠ Action.publish)
    (hw : s.workers[w]? = some WorkerPc.waiting)
    (hfd : s.serv.new_connection_fd ≠ 0) :
    (take s.serv).1 = s.serv.new_connection_fd ∧
    (take s.serv).2 = { s.serv with new_connection_fd := 0 } ∧
    (step s (Action.take w)).workers[w]? = some (WorkerPc.serving s.serv.new_connection_fd) ∧
    (step s (Action.take w)).serv.new_connection_fd = 0 ∧
    (take (run (step s (Action.take w)) acts).serv).1 = 0 ∧
    (∀ p : Serv, (take p).1 = p.new_connection_fd ∧ (take p).2.new_connection_fd = 0 ∧
      (take (take p).2).1 = 0) := by
  have hlt : w < s.workers.length := by
    rcases Nat.lt_or_ge w s.workers.length with h | h
    · exact h
    · rw [List.getElem?_eq_none h] at hw
      cases hw
  have hne : ¬ (0 = s.serv.new_connection_fd) := fun h => hfd h.symm
  have hslot : (step s (Action.take w)).serv.new_connection_fd = 0 := by
    simp [step, worker_take, hw, hne, take]
  refine ⟨rfl, rfl, ?_, hslot, ?_, fun p => ⟨rfl, rfl, rfl⟩⟩
  · simp [step, worker_take, hw, hne, take, hlt]
  · exact run_keeps_slot_empty acts _ hacts hslot

/-- Witness for C5: worker 0 takes handle 4; worker 1 then finds the slot empty. -/
theorem take_returns_slot_and_empties_it_witness :
    (take (run (init_sys 2) [Action.acceptor_check, Action.accept 4, Action.publish,
        Action.worker_check 0, Action.worker_check 1]).serv).1 = 4 ∧
    (take (run (step (run (init_sys 2) [Action.acceptor_check, Action.accept 4, Action.publish,
        Action.worker_check 0, Action.worker_check 1]) (Action.take 0))
        [Action.take 1, Action.acceptor_check]).serv).1 = 0 :=
  ⟨by decide,
   (take_returns_slot_and_empties_it
      (run (init_sys 2) [Action.acceptor_check, Action.accept 4, Action.publish,
        Action.worker_check 0, Action.worker_check 1]) 0
      [Action.take 1, Action.acceptor_check] (by decide) (by decide) (by decide)).2.2.2.2.1⟩

/-! ## Admission control -/

/-- The capacity notice is shorter than `MAX_BUFFER_SIZE`, so it is sent whole. -/
theorem max_connections_message_whole :
    max_connections_message.take (strnlen max_connections_message MAX_BUFFER_SIZE) =
      max_connections_message := by decide

/-- C2: when no permit is available, the acceptor's handling of a newly
accepted connection sends the capacity notice, closes the connection and goes
back to the loop head; the permit counter, the mailbox slot, the flag and the
workers are unchanged, and the connection is not published. -/
theorem acceptor_rejects_when_no_permit (s : Sys) (client_fd : Int)
    (hacc : s.acceptor = AcceptorPc.in_accept) (hfd : 0 ≤ client_fd)
    (hperm : s.serv.client_count_sem = 0) :
    (step s (Action.accept client_fd)).serv.log =
      s.serv.log ++ [Event.send client_fd max_connections_message, Event.close client_fd] ∧
    (step s (Action.accept client_fd)).serv.client_count_sem = s.serv.client_count_sem ∧
    (step s (Action.accept client_fd)).serv.new_connection_fd = s.serv.new_connection_fd ∧
    (step s (Action.accept client_fd)).serv.b_running = s.serv.b_running ∧
    (step s (Action.accept client_fd)).workers = s.workers ∧
    (step s (Action.accept client_fd)).acceptor = AcceptorPc.loop_head ∧
    step (step s (Action.accept client_fd)) Action.publish = step s (Action.accept client_fd) := by
  have hneg : ¬ (0 > client_fd) := by omega
  have hstep : step s (Action.accept client_fd) =
      { s with serv := (notify_client_max_connections client_fd s.serv).emit
                 [Event.close client_fd],
               acceptor := AcceptorPc.loop_head } := by
    simp [step, acceptor_accept, hacc, hneg, sem_trywait, hperm]
  rw [hstep]
  simp [notify_client_max_connections, Serv.emit, max_connections_message_whole, step,
    acceptor_publish]

/-- Witness for C2: capacity 2, two connections admitted, a third one arrives. -/
theorem acceptor_rejects_when_no_permit_witness :
    (run (init_sys 2) [Action.acceptor_check, Action.accept 4, Action.publish,
        Action.worker_check 0, Action.take 0, Action.acceptor_check, Action.accept 5,
        Action.publish, Action.acceptor_check]).serv.client_count_sem = 0 ∧
    (step (run (init_sys 2) [Action.acceptor_check, Action.accept 4, Action.publish,
        Action.worker_check 0, Action.take 0, Action.acceptor_check, Action.accept 5,
        Action.publish, Action.acceptor_check]) (Action.accept 6)).serv.new_connection_fd = 5 :=
  ⟨by decide,
   ((acceptor_rejects_when_no_permit
      (run (init_sys 2) [Action.acceptor_check, Action.accept 4, Action.publish,
        Action.worker_check 0, Action.take 0, Action.acceptor_check, Action.accept 5,
        Action.publish, Action.acceptor_check]) 6 (by decide) (by decide) (by decide)).2.2.1).trans
      (by decide)⟩

/-! ## Shutdown -/

/-- The join loop appends one join per index, in index order. -/
theorem join_threads_eq (todo : Nat) (p : Serv) (i : Nat) :
    join_threads p i todo =
      { p with log := p.log ++ (List.range' i todo).map Event.thread_join } := by
  induction todo generalizing p i with
  | zero => simp [join_threads]
  | succ n ih =>
    rw [join_threads, ih, List.range'_succ]
    simp [Serv.emit]

/-- On a running server `shutdown_server` clears the flag and appends the
events of `spec_shutdown_order`; nothing else changes. -/
theorem shutdown_server_running (p : Serv) (hrun : p.b_running = true) :
    shutdown_server p =
      { p with b_running := false,
               log := p.log ++ spec_shutdown_order p.max_connections.toNat } := by
  have hne : ¬ (false = p.b_running) := by simp [hrun]
  rw [shutdown_server, if_neg hne]
  simp [join_threads_eq, shutdown_begin, Serv.emit, spec_shutdown_order, List.range_eq_range']

/-- On a stopped server `shutdown_server` returns at once. -/
theorem shutdown_server_stopped (p : Serv) (hrun : p.b_running = false) :
    shutdown_server p = p := by
  simp [shutdown_server, hrun]

/-- Each worker index below the capacity is joined once in the shutdown order,
no other index is joined, and each synchronisation object is destroyed once. -/
theorem spec_shutdown_order_counts (capacity : Nat) :
    (∀ i, i < capacity → (spec_shutdown_order capacity).count (Event.thread_join i) = 1) ∧
    (∀ i, capacity ≤ i → (spec_shutdown_order capacity).count (Event.thread_join i) = 0) ∧
    (spec_shutdown_order capacity).count Event.sem_destroy = 1 ∧
    (spec_shutdown_order capacity).count Event.mutex_destroy = 1 ∧
    (spec_shutdown_order capacity).count Event.cond_destroy = 1 := by
  have hinj : Function.Injective Event.thread_join := by
    intro a b h
    cases h
    rfl
  have hnd : ((List.range capacity).map Event.thread_join).Nodup :=
    List.Nodup.map hinj (List.nodup_range capacity)
  have hout : ∀ e : Event, e.is_join = false →
      ((List.range capacity).map Event.thread_join).count e = 0 := by
    intro e he
    apply List.count_eq_zero_of_not_mem
    intro hmem
    rcases List.mem_map.1 hmem with ⟨i, _, rfl⟩
    simp [Event.is_join] at he
  refine ⟨?_, ?_, ?_, ?_, ?_⟩
  · intro i hi
    have hmem : Event.thread_join i ∈ (List.range capacity).map Event.thread_join :=
      List.mem_map.2 ⟨i, List.mem_range.2 hi, rfl⟩
    simp [spec_shutdown_order, List.count_append, List.count_eq_one_of_mem hnd hmem,
      List.count_cons]
  · intro i hi
    have hnot : Event.thread_join i ∉ (List.range capacity).map Event.thread_join := by
      intro hmem
      rcases List.mem_map.1 hmem with ⟨j, hj, hji⟩
      cases hji
      exact absurd (List.mem_range.1 hj) (by omega)
    simp [spec_shutdown_order, List.count_append, List.count_eq_zero_of_not_mem hnot,
      List.count_cons]
  · simp [spec_shutdown_order, List.count_append, hout Event.sem_destroy rfl, List.count_cons]
  · simp [spec_shutdown_order, List.count_append, hout Event.mutex_destroy rfl, List.count_cons]
  · simp [spec_shutdown_order, List.count_append, hout Event.cond_destroy rfl, List.count_cons]

/-- C6: `shutdown_server` is idempotent. On a server whose flag is already false
it changes nothing (no state, no event). For a running server, two calls in a
row leave the same state as one call, with the flag false, and the events of
the two calls together join each worker once and destroy the semaphore, the
mutex and the condition variable once each. -/
theorem shutdown_server_idempotent (p : Serv) (hrun : p.b_running = true) :
    (∀ q : Serv, shutdown_server { q with b_running := false } = { q with b_running := false }) ∧
    shutdown_server (shutdown_server p) = shutdown_server p ∧
    (shutdown_server (shutdown_server p)).b_running = false ∧
    (∀ i : Nat, (i : Int) < p.max_connections →
      ((shutdown_server (shutdown_server p)).log.drop p.log.length).count
        (Event.thread_join i) = 1) ∧
    ((shutdown_server (shutdown_server p)).log.drop p.log.length).count Event.sem_destroy = 1 ∧
    ((shutdown_server (shutdown_server p)).log.drop p.log.length).count Event.mutex_destroy = 1 ∧
    ((shutdown_server (shutdown_server p)).log.drop p.log.length).count Event.cond_destroy = 1 := by
  have h1 := shutdown_server_running p hrun
  have hflag : (shutdown_server p).b_running = false := by rw [h1]
  have h2 : shutdown_server (shutdown_server p) = shutdown_server p :=
    shutdown_server_stopped _ hflag
  have hlog : (shutdown_server (shutdown_server p)).log.drop p.log.length =
      spec_shutdown_order p.max_connections.toNat := by
    rw [h2, h1]
    simp
  have hc := spec_shutdown_order_counts p.max_connections.toNat
  refine ⟨fun q => shutdown_server_stopped _ rfl, h2, by rw [h2]; exact hflag, ?_, ?_, ?_, ?_⟩
  · intro i hi
    rw [hlog]
    exact hc.1 i (by omega)
  · rw [hlog]; exact hc.2.2.1
  · rw [hlog]; exact hc.2.2.2.1
  · rw [hlog]; exact hc.2.2.2.2

/-- Witness for C6: the server right after initialisation with three workers. -/
theorem shutdown_server_idempotent_witness :
    (init_sys 3).serv.b_running = true ∧
    shutdown_server (shutdown_server (init_sys 3).serv) = shutdown_server (init_sys 3).serv :=
  ⟨by decide, (shutdown_server_idempotent (init_sys 3).serv (by decide)).2.1⟩

/-- C7: on a running server with capacity `C`, `shutdown_server` appends to the
log exactly: the flag flip, the broadcast, the joins of workers `0 .. C-1` in
order, and then the destroys. The flag flip comes first and the broadcast
second, each worker is joined exactly once, no destroy is followed by a join,
and every join comes before every destroy. -/
theorem shutdown_server_order (p : Serv) (C : Nat) (hrun : p.b_running = true)
    (hcap : p.max_connections = (C : Int)) :
    (shutdown_server p).log = p.log ++ spec_shutdown_order C ∧
    (shutdown_server p).b_running = false ∧
    spec_shutdown_order C =
      [Event.store_running false, Event.cond_broadcast] ++
      (List.range C).map Event.thread_join ++
      [Event.sem_getvalue, Event.sem_destroy, Event.mutex_destroy, Event.cond_destroy,
        Event.free_thread_ids] ∧
    (∀ i, i < C → (spec_shutdown_order C).count (Event.thread_join i) = 1) ∧
    (∀ i, C ≤ i → (spec_shutdown_order C).count (Event.thread_join i) = 0) ∧
    (spec_shutdown_order C).Pairwise (fun a b => a.is_destroy = true → b.is_join = false) ∧
    (spec_shutdown_order C).Pairwise (fun a b => b = Event.cond_broadcast →
      a = Event.store_running false) := by
  have h1 := shutdown_server_running p hrun
  have hC : p.max_connections.toNat = C := by omega
  rw [hC] at h1
  have hc := spec_shutdown_order_counts C
  refine ⟨by rw [h1], by rw [h1], rfl, hc.1, hc.2.1, ?_, ?_⟩
  · unfold spec_shutdown_order
    rw [List.pairwise_append]
    refine ⟨?_, by decide, ?_⟩
    · rw [List.pairwise_append]
      refine ⟨by decide, ?_, ?_⟩
      · rw [List.pairwise_map]
        exact List.Pairwise.imp (fun _ h => by simp [Event.is_destroy] at h)
          (List.pairwise_lt_range C)
      · intro a ha b _ hd
        simp at ha
        rcases ha with rfl | rfl <;> simp [Event.is_destroy] at hd
    · intro a _ b hb _
      simp at hb
      rcases hb with rfl | rfl | rfl | rfl | rfl <;> rfl
  · unfold spec_shutdown_order
    rw [List.pairwise_append]
    refine ⟨?_, by decide, ?_⟩
    · rw [List.pairwise_append]
      refine ⟨by decide, ?_, ?_⟩
      · rw [List.pairwise_map]
        exact List.Pairwise.imp (fun _ h => by cases h) (List.pairwise_lt_range C)
      · intro a _ b hb hbc
        rcases List.mem_map.1 hb with ⟨i, _, rfl⟩
        cases hbc
    · intro a _ b hb hbc
      subst hbc
      simp at hb

/-- Witness for C7: the server right after initialisation with three workers. -/
theorem shutdown_server_order_witness :
    (init_sys 3).serv.b_running = true ∧
    (shutdown_server (init_sys 3).serv).log =
      (init_sys 3).serv.log ++
        [Event.store_running false, Event.cond_broadcast, Event.thread_join 0,
          Event.thread_join 1, Event.thread_join 2, Event.sem_getvalue, Event.sem_destroy,
          Event.mutex_destroy, Event.cond_destroy, Event.free_thread_ids] :=
  ⟨by decide, (shutdown_server_order (init_sys 3).serv 3 (by decide) (by decide)).1⟩

/-! ## The admission invariant -/

/-- No worker has a negative weight. -/
theorem holds_sum_nonneg (l : List WorkerPc) : 0 ≤ (l.map WorkerPc.holds).sum := by
  induction l with
  | nil => simp
  | cons a t ih =>
    have ha : 0 ≤ a.holds := by cases a <;> simp [WorkerPc.holds]
    simp only [List.map_cons, List.sum_cons]
    omega

/-- Replacing the state of one worker changes the total weight by the
difference of the two weights. -/
theorem holds_sum_set (l : List WorkerPc) (w : Nat) (pc x : WorkerPc) (h : l[w]? = some pc) :
    ((l.set w x).map WorkerPc.holds).sum = (l.map WorkerPc.holds).sum - pc.holds + x.holds := by
  induction l generalizing w with
  | nil => simp at h
  | cons a t ih =>
    cases w with
    | zero =>
      simp only [List.getElem?_cons_zero, Option.some.injEq] at h
      subst h
      simp only [List.set_cons_zero, List.map_cons, List.sum_cons]
      omega
    | succ n =>
      simp only [List.getElem?_cons_succ] at h
      simp only [List.set_cons_succ, List.map_cons, List.sum_cons, ih n h]
      omega

/-- With every call succeeding, the creation loop only extends the log. -/
theorem create_threads_ok (todo : Nat) (p : Serv) (i : Nat) :
    create_threads init_ok p i todo =
      (true, { p with log := p.log ++ (List.range' i todo).map Event.thread_create }) := by
  induction todo generalizing p i with
  | zero => simp [create_threads]
  | succ n ih =>
    have hok : ¬ (0 > init_ok.thread_create i) := by simp [init_ok]
    rw [create_threads]
    simp only [hok, if_false, ih]
    simp [List.range'_succ, Serv.emit]

/-- A successful initialisation: running, all permits available, slot empty. -/
theorem init_sys_serv (cap : Int) :
    (init_sys cap).serv.b_running = true ∧ (init_sys cap).serv.max_connections = cap ∧
    (init_sys cap).serv.client_count_sem = cap ∧ (init_sys cap).serv.new_connection_fd = 0 := by
  have h1 : init_ok.mutex_init = 0 := rfl
  have h2 : init_ok.cond_init = 0 := rfl
  have h3 : init_ok.sem_init = 0 := rfl
  simp [init_sys, init_server, create_threads_ok, h1, h2, h3, g_serv, Serv.emit]

/-- The admission invariant holds right after initialisation. -/
theorem admission_inv_init (cap : Int) (hcap : 0 ≤ cap) : admission_inv cap (init_sys cap) := by
  obtain ⟨_, _, hsem, hfd⟩ := init_sys_serv cap
  have hw : ((init_sys cap).workers.map WorkerPc.holds).sum = 0 := by
    simp [init_sys, WorkerPc.holds]
  have ha : (init_sys cap).acceptor.holds = 0 := rfl
  unfold admission_inv in_flight
  rw [hsem, hfd, hw, ha]
  simp [slot_holds, hcap]

/-- Every step keeps the admission invariant. -/
theorem admission_inv_step (cap : Int) (s : Sys) (a : Action) (h : admission_inv cap s) :
    admission_inv cap (step s a) := by
  have hW := holds_sum_nonneg s.workers
  have hS : 0 ≤ slot_holds s.serv.new_connection_fd ∧ slot_holds s.serv.new_connection_fd ≤ 1 := by
    unfold slot_holds
    split <;> omega
  unfold admission_inv in_flight at h ⊢
  obtain ⟨hp, hc⟩ := h
  cases a with
  | acceptor_check =>
    simp only [step, acceptor_check]
    split
    · rename_i hacc
      rw [hacc] at hc
      split <;> exact ⟨hp, hc⟩
    · exact ⟨hp, hc⟩
  | accept client_fd =>
    simp only [step, acceptor_accept]
    split
    · rename_i hacc
      rw [hacc] at hc
      simp only [AcceptorPc.holds] at hc
      split
      · exact ⟨hp, hc⟩
      · unfold sem_trywait
        by_cases hpos : 0 < s.serv.client_count_sem
        · simp only [hpos, if_true, gt_iff_lt, lt_self_iff_false, if_false, AcceptorPc.holds]
          constructor <;> omega
        · simp [hpos, notify_client_max_connections, Serv.emit, AcceptorPc.holds]
          constructor <;> omega
    · exact ⟨hp, hc⟩
  | publish =>
    simp only [step, acceptor_publish]
    split
    · rename_i fd hacc
      rw [hacc] at hc
      simp only [AcceptorPc.holds] at hc ⊢
      have hS2 : slot_holds fd ≤ 1 := by
        unfold slot_holds
        split <;> omega
      split <;> (simp only [Serv.emit]; constructor <;> omega)
    · exact ⟨hp, hc⟩
  | worker_check w =>
    simp only [step, worker_check]
    split
    · rename_i hw
      split <;>
        (simp only [holds_sum_set _ _ _ _ hw, WorkerPc.holds]; constructor <;> omega)
    · exact ⟨hp, hc⟩
  | take w =>
    simp only [step, worker_take]
    split
    · rename_i hw
      split
      · exact ⟨hp, hc⟩
      · simp only [take]
        split
        · simp only [holds_sum_set _ _ _ _ hw, WorkerPc.holds, slot_holds, if_true]
          constructor <;> omega
        · rename_i hne
          have hS3 : slot_holds s.serv.new_connection_fd = 1 := by
            unfold slot_holds
            rw [if_neg]
            intro h0
            exact hne h0.symm
          simp only [holds_sum_set _ _ _ _ hw, WorkerPc.holds, slot_holds, if_true]
          constructor <;> omega
    · exact ⟨hp, hc⟩
  | serve w client alloc_ok =>
    simp only [step, worker_serve]
    split
    · rename_i fd hw
      split
      · exact ⟨hp, hc⟩
      · simp only [holds_sum_set _ _ _ _ hw, WorkerPc.holds]
        constructor <;> omega
    · exact ⟨hp, hc⟩
  | close w =>
    simp only [step, worker_close]
    split
    · rename_i fd hw
      simp only [holds_sum_set _ _ _ _ hw, WorkerPc.holds, Serv.emit]
      constructor <;> omega
    · exact ⟨hp, hc⟩
  | post w =>
    simp only [step, worker_post]
    split
    · rename_i hw
      simp only [holds_sum_set _ _ _ _ hw, WorkerPc.holds, sem_post]
      constructor <;> omega
    · exact ⟨hp, hc⟩
  | interrupt =>
    simp only [step, interrupt]
    split
    · exact ⟨hp, hc⟩
    · simp only [shutdown_begin]
      exact ⟨hp, hc⟩

/-- Every schedule keeps the admission invariant. -/
theorem admission_inv_run (cap : Int) (acts : List Action) (s : Sys)
    (h : admission_inv cap s) : admission_inv cap (run s acts) := by
  induction acts generalizing s with
  | nil => exact h
  | cons a rest ih => exact ih (step s a) (admission_inv_step cap s a h)

/-- C1: initialisation leaves `permits = capacity`, an empty slot and
`running = true`, and in every state reached from it by any schedule of
acceptor and worker steps the admission counter satisfies
`0 ≤ permits ≤ capacity`, for every capacity of at least 2. -/
theorem permits_within_capacity (cap : Int) (hcap : 2 ≤ cap) (acts : List Action) :
    (init_sys cap).serv.client_count_sem = cap ∧
    (init_sys cap).serv.new_connection_fd = 0 ∧
    (init_sys cap).serv.b_running = true ∧
    0 ≤ (run (init_sys cap) acts).serv.client_count_sem ∧
    (run (init_sys cap) acts).serv.client_count_sem ≤ cap := by
  obtain ⟨hrun, _, hsem, hfd⟩ := init_sys_serv cap
  have hinv := admission_inv_run cap acts (init_sys cap) (admission_inv_init cap (by omega))
  have hW := holds_sum_nonneg (run (init_sys cap) acts).workers
  have hA : 0 ≤ (run (init_sys cap) acts).acceptor.holds := by
    cases (run (init_sys cap) acts).acceptor <;> simp [AcceptorPc.holds]
  have hS : 0 ≤ slot_holds (run (init_sys cap) acts).serv.new_connection_fd := by
    unfold slot_holds
    split <;> omega
  unfold admission_inv in_flight at hinv
  refine ⟨hsem, hfd, hrun, hinv.1, ?_⟩
  omega

/-- Witness for C1: capacity 2, two admissions, a rejection and a finished session. -/
theorem permits_within_capacity_witness :
    (2 : Int) ≤ 2 ∧
    0 ≤ (run (init_sys 2) [Action.acceptor_check, Action.accept 4, Action.publish,
      Action.worker_check 0, Action.take 0, Action.acceptor_check, Action.accept 5,
      Action.publish, Action.acceptor_check, Action.accept 6,
      Action.serve 0 ⟨[], false, false, false, [], none⟩ true, Action.close 0,
      Action.post 0]).serv.client_count_sem :=
  ⟨by decide,
   (permits_within_capacity 2 (by decide) [Action.acceptor_check, Action.accept 4,
      Action.publish, Action.worker_check 0, Action.take 0, Action.acceptor_check,
      Action.accept 5, Action.publish, Action.acceptor_check, Action.accept 6,
      Action.serve 0 ⟨[], false, false, false, [], none⟩ true, Action.close 0,
      Action.post 0]).2.2.2.1⟩

/-! ## Sessions and permits -/

/-- Running two schedules one after the other. -/
theorem run_append (s : Sys) (a b : List Action) : run s (a ++ b) = run (run s a) b := by
  simp [run, List.foldl_append]

/-- Admission: with a permit available the acceptor takes it and sends the
handshake byte. -/
theorem accept_admits (s : Sys) (client_fd : Int) (hacc : s.acceptor = AcceptorPc.in_accept)
    (hfd : 0 ≤ client_fd) (hperm : 0 < s.serv.client_count_sem) :
    step s (Action.accept client_fd) =
      { s with serv := { s.serv with client_count_sem := s.serv.client_count_sem - 1,
                                     log := s.serv.log ++ [Event.send client_fd handshake_byte] },
               acceptor := AcceptorPc.admitted client_fd } := by
  have hneg : ¬ (0 > client_fd) := by omega
  have hb : handshake_byte.take 1 = handshake_byte := by decide
  simp [step, acceptor_accept, hacc, hneg, sem_trywait, hperm, hb]

/-- Publication of a non-zero descriptor. -/
theorem publish_stores (s : Sys) (client_fd : Int)
    (hacc : s.acceptor = AcceptorPc.admitted client_fd) (hfd : client_fd ≠ 0) :
    step s Action.publish =
      { s with serv := { s.serv with new_connection_fd := client_fd,
                                     log := s.serv.log ++ [Event.cond_signal] },
               acceptor := AcceptorPc.loop_head } := by
  have hne : ¬ (0 = client_fd) := fun h => hfd h.symm
  simp [step, acceptor_publish, hacc, hne, Serv.emit]

/-- A waiting worker that finds a handle starts serving it. -/
theorem take_serves (s : Sys) (w : Nat) (hw : s.workers[w]? = some WorkerPc.waiting)
    (hfd : s.serv.new_connection_fd ≠ 0) :
    step s (Action.take w) =
      { s with serv := { s.serv with new_connection_fd := 0 },
               workers := s.workers.set w (WorkerPc.serving s.serv.new_connection_fd) } := by
  have hne : ¬ (0 = s.serv.new_connection_fd) := fun h => hfd h.symm
  simp [step, worker_take, hw, hne, take]

/-- Rounds in which `handle_client` returns true leave the system as it is. -/
theorem serve_rounds_stay (rounds : List (Sock × Bool)) (s : Sys) (w : Nat)
    (hrounds : ∀ r ∈ rounds, (handle_client r.1 r.2).1 = true) :
    run s (rounds.map (fun r => Action.serve w r.1 r.2)) = s := by
  induction rounds with
  | nil => rfl
  | cons r rest ih =>
    have hr := hrounds r (List.mem_cons_self r rest)
    have hstep : step s (Action.serve w r.1 r.2) = s := by
      simp only [step, worker_serve]
      split
      · simp [hr]
      · rfl
    simp only [List.map_cons, run, List.foldl_cons, hstep]
    exact ih (fun x hx => hrounds x (List.mem_cons_of_mem r hx))

/-- The round in which `handle_client` returns false, the close and the release. -/
theorem session_end (s : Sys) (w : Nat) (fd : Int) (last : Sock × Bool)
    (hw : s.workers[w]? = some (WorkerPc.serving fd))
    (hlast : (handle_client last.1 last.2).1 = false) :
    run s [Action.serve w last.1 last.2, Action.close w, Action.post w] =
      { s with serv := { s.serv with client_count_sem := s.serv.client_count_sem + 1,
                                     log := s.serv.log ++ [Event.close fd, Event.sem_post w] },
               workers := s.workers.set w WorkerPc.loop_head } := by
  have hlt : w < s.workers.length := by
    rcases Nat.lt_or_ge w s.workers.length with h | h
    · exact h
    · rw [List.getElem?_eq_none h] at hw
      cases hw
  simp [run, step, worker_serve, worker_close, worker_post, hw, hlast, hlt, Serv.emit, sem_post,
    List.set_set]

/-- What `recv` does, case by case. -/
theorem recv_eq (s : Sock) (buf : List Nat) (len : Nat) (peek : Bool) :
    (s.recv_err = true → recv s buf len peek = ⟨-1, buf, s⟩) ∧
    (s.recv_err = false → s.queue = [] →
      recv s buf len peek = ⟨if s.nonblock then -1 else 0, buf, s⟩) ∧
    (s.recv_err = false → s.queue ≠ [] →
      recv s buf len peek =
        ⟨((s.queue.take len).length : Int),
          s.queue.take len ++ buf.drop (s.queue.take len).length,
          if peek then s else { s with queue := s.queue.drop len }⟩) := by
  refine ⟨?_, ?_, ?_⟩
  · intro h
    simp [recv, h]
  · intro h hq
    simp [recv, h, hq]
  · intro h hq
    simp [recv, h, hq]

/-- A receive never touches the sending side of the socket. -/
theorem recv_send_err (s : Sock) (buf : List Nat) (len : Nat) (peek : Bool) :
    (recv s buf len peek).sock.send_err = s.send_err := by
  obtain ⟨h1, h2, h3⟩ := recv_eq s buf len peek
  cases he : s.recv_err
  · by_cases hq : s.queue = []
    · rw [h2 he hq]
    · rw [h3 he hq]
      cases peek <;> rfl
  · rw [h1 he]

/-- The drain loop: on a failing socket it stops at once, otherwise it empties
the queue; nothing else changes. -/
theorem purge_loop_eq (n : Nat) (u : Sock) (buf : List Nat) (hn : u.queue.length = n) :
    purge_loop u buf = if u.recv_err then u else { u with queue := [] } := by
  induction n using Nat.strong_induction_on generalizing u buf with
  | _ n ih =>
    obtain ⟨h1, h2, h3⟩ := recv_eq u buf (PURGE_BUFFER_SIZE + 1) false
    rw [purge_loop]
    by_cases he : u.recv_err = true
    · have hr := h1 he
      simp only [hr]
      rw [dif_neg (by simp only [PURGE_BUFFER_SIZE]; omega), if_pos he]
    · have he2 : u.recv_err = false := by simpa using he
      rw [if_neg he]
      by_cases hq : u.queue = []
      · have hr := h2 he2 hq
        simp only [hr]
        rw [dif_neg (by simp only [PURGE_BUFFER_SIZE]; split <;> omega)]
        cases u
        simp_all
      · have hr := h3 he2 hq
        simp only [hr, Bool.false_eq_true, if_false, List.length_take]
        by_cases hlen : 257 ≤ u.queue.length
        · rw [dif_pos (by simp only [PURGE_BUFFER_SIZE]; omega)]
          rw [ih (u.queue.length - 257) (by omega) _ _
            (by simp only [List.length_drop, PURGE_BUFFER_SIZE])]
          simp [he2]
        · rw [dif_neg (by simp only [PURGE_BUFFER_SIZE]; omega)]
          rw [List.drop_eq_nil_of_le (by simp only [PURGE_BUFFER_SIZE]; omega)]

/-- What `purge_socket` leaves: a blocking socket, drained unless it fails. -/
theorem purge_socket_eq (s : Sock) :
    purge_socket s =
      if s.recv_err then { s with nonblock := false }
      else { s with queue := [], nonblock := false } := by
  unfold purge_socket
  simp only []
  rw [purge_loop_eq _ _ _ rfl]
  cases he : s.recv_err <;> simp [he]

/-- The classification keeps the socket it is given. -/
theorem read_status_sock (b : Int) (buf : List Nat) (t : Sock) :
    (read_status b buf t).sock = t := by
  unfold read_status
  split
  · rfl
  · split <;> rfl

/-- A request never repairs the sending side of the socket. -/
theorem read_from_client_send_err (client : Sock) (buf : List Nat) :
    (read_from_client client buf).sock.send_err = client.send_err := by
  have hrd : (consume_recv client buf).sock.send_err = client.send_err := by
    unfold consume_recv peek_recv
    simp only []
    rw [recv_send_err, recv_send_err]
  have hsend : ∀ (t : Sock) (m : List Nat) (k : Nat), (send t m k).sock.send_err = t.send_err := by
    intro t m k
    unfold send
    split
    · split <;> rfl
    · rfl
  have hpurge : ∀ t : Sock, (purge_socket t).send_err = t.send_err := by
    intro t
    rw [purge_socket_eq]
    split <;> rfl
  unfold read_from_client
  simp only []
  split
  · split
    · simp only [hsend, hrd]
    · rw [read_status_sock, hpurge, hsend, hrd]
  · rw [read_status_sock, hrd]

/-- What ends a session: `handle_client` returns false on every negative result
of `read_from_client`, on a failed allocation, and when the test of
serv_lib.c 307 finds the result of the response `send`, converted to `size_t`,
below the length of the response. -/
theorem handle_client_ends (client : Sock) (alloc_ok : Bool) :
    ((read_from_client client (List.replicate (MAX_BUFFER_SIZE + 1) 0)).status < 0 →
      (handle_client client alloc_ok).1 = false) ∧
    (alloc_ok = false → (handle_client client alloc_ok).1 = false) ∧
    (strnlen response MAX_BUFFER_SIZE >
        size_t_of_int (send (read_from_client client
          (List.replicate (MAX_BUFFER_SIZE + 1) 0)).sock response
          (strnlen response MAX_BUFFER_SIZE)).ret →
      (handle_client client alloc_ok).1 = false) := by
  refine ⟨?_, ?_, ?_⟩
  · intro hst
    unfold handle_client
    split
    · rfl
    · simp only []
      rw [if_pos (by omega)]
  · intro ha
    subst ha
    simp [handle_client]
  · intro hshort
    unfold handle_client
    split
    · rfl
    · simp only []
      split
      · rfl
      · rfl

/-- One step of any thread, seen from worker `w` while it holds a connection:
either `w` itself posts, which appends one `sem_post w`, adds one permit and
takes `w` back to the loop head, or `w` still holds its connection and the
number of its posts is unchanged. -/
theorem session_step (t : Sys) (w : Nat) (a : Action) (pc : WorkerPc)
    (hpc : t.workers[w]? = some pc) (hin : pc.holds = 1) :
    (a = Action.post w ∧ (step t a).workers[w]? = some WorkerPc.loop_head ∧
      (step t a).serv.log = t.serv.log ++ [Event.sem_post w] ∧
      (step t a).serv.client_count_sem = t.serv.client_count_sem + 1) ∨
    ((∃ pc2, (step t a).workers[w]? = some pc2 ∧ pc2.holds = 1) ∧
      (step t a).serv.log.count (Event.sem_post w) = t.serv.log.count (Event.sem_post w)) := by
  have hlt : w < t.workers.length := by
    rcases Nat.lt_or_ge w t.workers.length with h | h
    · exact h
    · rw [List.getElem?_eq_none h] at hpc
      cases hpc
  have hstay : ∃ pc2, t.workers[w]? = some pc2 ∧ pc2.holds = 1 := ⟨pc, hpc, hin⟩
  have hother : ∀ (w2 : Nat) (x : WorkerPc), w2 ≠ w →
      ∃ pc2, (t.workers.set w2 x)[w]? = some pc2 ∧ pc2.holds = 1 := by
    intro w2 x hne
    exact ⟨pc, by rw [List.getElem?_set_ne hne, hpc], hin⟩
  have hself : ∀ x : WorkerPc, x.holds = 1 →
      ∃ pc2, (t.workers.set w x)[w]? = some pc2 ∧ pc2.holds = 1 := by
    intro x hx
    exact ⟨x, List.getElem?_set_self hlt, hx⟩
  have hidle : ∀ (w2 : Nat) (x : WorkerPc), t.workers[w2]? = some x → x.holds = 0 → w2 ≠ w := by
    intro w2 x hx h0 heq
    subst heq
    rw [hpc] at hx
    cases hx
    rw [hin] at h0
    exact absurd h0 (by decide)
  cases a with
  | acceptor_check =>
    right
    simp only [step, acceptor_check]
    split
    · split <;> exact ⟨hstay, rfl⟩
    · exact ⟨hstay, rfl⟩
  | accept client_fd =>
    right
    simp only [step, acceptor_accept]
    split
    · split
      · exact ⟨hstay, rfl⟩
      · split
        · exact ⟨hstay, by simp [notify_client_max_connections, Serv.emit, List.count_cons]⟩
        · exact ⟨hstay, by simp [List.count_cons]⟩
    · exact ⟨hstay, rfl⟩
  | publish =>
    right
    simp only [step, acceptor_publish]
    split
    · split
      · exact ⟨hstay, by simp [Serv.emit, List.count_cons]⟩
      · exact ⟨hstay, rfl⟩
    · exact ⟨hstay, rfl⟩
  | worker_check w2 =>
    right
    simp only [step, worker_check]
    split
    · rename_i hw2
      have hne := hidle w2 _ hw2 rfl
      split <;> exact ⟨hother w2 _ hne, rfl⟩
    · exact ⟨hstay, rfl⟩
  | take w2 =>
    right
    simp only [step, worker_take]
    split
    · rename_i hw2
      have hne := hidle w2 _ hw2 rfl
      split
      · exact ⟨hstay, rfl⟩
      · split <;> exact ⟨hother w2 _ hne, rfl⟩
    · exact ⟨hstay, rfl⟩
  | serve w2 client alloc_ok =>
    right
    simp only [step, worker_serve]
    split
    · rename_i fd hw2
      split
      · exact ⟨hstay, rfl⟩
      · by_cases hww : w2 = w
        · subst hww
          exact ⟨hself _ rfl, rfl⟩
        · exact ⟨hother w2 _ hww, rfl⟩
    · exact ⟨hstay, rfl⟩
  | close w2 =>
    right
    simp only [step, worker_close]
    split
    · rename_i fd hw2
      by_cases hww : w2 = w
      · subst hww
        exact ⟨hself _ rfl, by simp [Serv.emit, List.count_cons]⟩
      · exact ⟨hother w2 _ hww, by simp [Serv.emit, List.count_cons]⟩
    · exact ⟨hstay, rfl⟩
  | post w2 =>
    simp only [step, worker_post]
    split
    · rename_i hw2
      by_cases hww : w2 = w
      · subst hww
        left
        exact ⟨rfl, List.getElem?_set_self hlt, rfl, rfl⟩
      · right
        refine ⟨hother w2 _ hww, ?_⟩
        simp [List.count_cons, hww]
    · exact Or.inr ⟨hstay, rfl⟩
  | interrupt =>
    right
    simp only [step, interrupt]
    split
    · exact ⟨hstay, rfl⟩
    · exact ⟨hstay, by simp [shutdown_begin, List.count_cons]⟩

/-- A connection that the acceptor admits takes one permit; when the acceptor
publishes it into an empty slot, a waiting worker takes it and its session ends
after any number of rounds, by whatever way `handle_client` returns false, the
worker closes the descriptor once and releases exactly one permit, and the
permit count is back at its value before the admission. The session ends on
every negative result of `read_from_client`, and when the response `send`
returns a count that is not negative and is below the length of the response.
Under any interleaving, a step of any thread either is the one `sem_post` by
which the worker leaves its session, or leaves the worker in its session with
no further post of its own. -/
theorem session_releases_permit (s : Sys) (client_fd : Int) (w : Nat)
    (rounds : List (Sock × Bool)) (last : Sock × Bool)
    (hacc : s.acceptor = AcceptorPc.in_accept) (hfd : 0 < client_fd)
    (hperm : 0 < s.serv.client_count_sem)
    (hw : s.workers[w]? = some WorkerPc.waiting)
    (hrounds : ∀ r ∈ rounds, (handle_client r.1 r.2).1 = true)
    (hlast : (handle_client last.1 last.2).1 = false) :
    (step s (Action.accept client_fd)).serv.client_count_sem = s.serv.client_count_sem - 1 ∧
    (run (step s (Action.accept client_fd))
      (session_schedule w rounds last)).serv.client_count_sem = s.serv.client_count_sem ∧
    (run (step s (Action.accept client_fd)) (session_schedule w rounds last)).serv.log =
      s.serv.log ++ [Event.send client_fd handshake_byte, Event.cond_signal,
        Event.close client_fd, Event.sem_post w] ∧
    ((run (step s (Action.accept client_fd)) (session_schedule w rounds last)).serv.log.drop
      s.serv.log.length).count (Event.sem_post w) = 1 ∧
    (run (step s (Action.accept client_fd)) (session_schedule w rounds last)).workers[w]? =
      some WorkerPc.loop_head ∧
    (∀ (client : Sock) (alloc_ok : Bool),
      ((read_from_client client (List.replicate (MAX_BUFFER_SIZE + 1) 0)).status =
          SOCK_CLIENT_DISCONNECT ∨
        (read_from_client client (List.replicate (MAX_BUFFER_SIZE + 1) 0)).status =
          SOCK_READ_ERROR ∨
        (read_from_client client (List.replicate (MAX_BUFFER_SIZE + 1) 0)).status =
          SOCK_SEND_ERROR ∨
        strnlen response MAX_BUFFER_SIZE >
          size_t_of_int (send (read_from_client client
            (List.replicate (MAX_BUFFER_SIZE + 1) 0)).sock response
            (strnlen response MAX_BUFFER_SIZE)).ret) →
      (handle_client client alloc_ok).1 = false) ∧
    (∀ (t : Sys) (a : Action) (pc : WorkerPc), t.workers[w]? = some pc → pc.holds = 1 →
      (a = Action.post w ∧ (step t a).workers[w]? = some WorkerPc.loop_head ∧
        (step t a).serv.log = t.serv.log ++ [Event.sem_post w] ∧
        (step t a).serv.client_count_sem = t.serv.client_count_sem + 1) ∨
      ((∃ pc2, (step t a).workers[w]? = some pc2 ∧ pc2.holds = 1) ∧
        (step t a).serv.log.count (Event.sem_post w) =
          t.serv.log.count (Event.sem_post w))) := by
  have hlt : w < s.workers.length := by
    rcases Nat.lt_or_ge w s.workers.length with h | h
    · exact h
    · rw [List.getElem?_eq_none h] at hw
      cases hw
  have hne : client_fd ≠ 0 := by omega
  have h1 := accept_admits s client_fd hacc (by omega) hperm
  have h2 := publish_stores (step s (Action.accept client_fd)) client_fd (by rw [h1]) hne
  have h3 := take_serves (step (step s (Action.accept client_fd)) Action.publish) w
    (by rw [h2, h1]; exact hw) (by rw [h2]; exact hne)
  have hfin : run (step s (Action.accept client_fd)) (session_schedule w rounds last) =
      { serv := { s.serv with client_count_sem := s.serv.client_count_sem - 1 + 1,
                              new_connection_fd := 0,
                              log := s.serv.log ++ [Event.send client_fd handshake_byte,
                                Event.cond_signal, Event.close client_fd, Event.sem_post w] },
        acceptor := AcceptorPc.loop_head,
        workers := s.workers.set w WorkerPc.loop_head } := by
    unfold session_schedule
    rw [run_append, run_append]
    have hpre : run (step s (Action.accept client_fd)) [Action.publish, Action.take w] =
        step (step (step s (Action.accept client_fd)) Action.publish) (Action.take w) := rfl
    rw [hpre, serve_rounds_stay rounds _ w hrounds,
      session_end _ w client_fd last (by rw [h3, h2, h1]; simp [hlt]) hlast, h3, h2, h1]
    simp [List.set_set]
  refine ⟨by rw [h1], by rw [hfin]; simp, by rw [hfin], ?_, by rw [hfin]; simp [hlt], ?_,
    fun t a pc h1 h2 => session_step t w a pc h1 h2⟩
  · rw [hfin]
    simp [List.count_cons]
  · intro client alloc_ok h
    have he := handle_client_ends client alloc_ok
    rcases h with h | h | h | h
    · exact he.1 (by rw [h]; decide)
    · exact he.1 (by rw [h]; decide)
    · exact he.1 (by rw [h]; decide)
    · exact he.2.2 h

/-- One connection on descriptor 4, served by worker 0 for one answered request
(`"1+2\n"`) and ended by the client's disconnect: the permit count is 2 before
the admission and 2 after the session. -/
theorem session_releases_permit_once :
    (run (init_sys 2) [Action.acceptor_check, Action.worker_check 0]).serv.client_count_sem = 2 ∧
    (run (step (run (init_sys 2) [Action.acceptor_check, Action.worker_check 0])
        (Action.accept 4))
      (session_schedule 0 [(⟨str_bytes "1+2\n", false, false, false, [], none⟩, true)]
        (⟨[], false, false, false, [], none⟩, true))).serv.client_count_sem = 2 :=
  ⟨by decide,
   (session_releases_permit
      (run (init_sys 2) [Action.acceptor_check, Action.worker_check 0]) 4 0
      [(⟨str_bytes "1+2\n", false, false, false, [], none⟩, true)]
      (⟨[], false, false, false, [], none⟩, true)
      (by decide) (by decide) (by decide) (by decide) (by decide) (by decide)).2.1.trans
      (by decide)⟩

/-- A descriptor out of the server's reach stays so, as long as `accept` does
not return it again. -/
theorem handle_lost_step (fd : Int) (hfd : fd ≠ 0) (s : Sys) (a : Action)
    (ha : a ≠ Action.accept fd) (h : handle_lost fd s) : handle_lost fd (step s a) := by
  obtain ⟨hA, hS, hW, hL⟩ := h
  have hset : ∀ (w : Nat) (x : WorkerPc), x ≠ WorkerPc.serving fd → x ≠ WorkerPc.closing fd →
      ∀ pc ∈ s.workers.set w x, pc ≠ WorkerPc.serving fd ∧ pc ≠ WorkerPc.closing fd := by
    intro w x h1 h2 pc hpc
    rcases List.mem_or_eq_of_mem_set hpc with hm | he
    · exact hW pc hm
    · rw [he]
      exact ⟨h1, h2⟩
  have hmem : ∀ (w : Nat) (x : WorkerPc), s.workers[w]? = some x → x ∈ s.workers := by
    intro w x hx
    exact List.getElem?_mem hx
  cases a with
  | acceptor_check =>
    simp only [step, acceptor_check]
    split
    · split
      · exact ⟨by simp, hS, hW, hL⟩
      · exact ⟨by simp, hS, hW, hL⟩
    · exact ⟨hA, hS, hW, hL⟩
  | accept client_fd =>
    have hne : client_fd ≠ fd := by
      intro h
      exact ha (by rw [h])
    simp only [step, acceptor_accept]
    split
    · split
      · exact ⟨by simp, hS, hW, hL⟩
      · split
        · refine ⟨by simp, hS, hW, ?_⟩
          simp [notify_client_max_connections, Serv.emit, hL, hne.symm]
        · refine ⟨by simp [hne], hS, hW, ?_⟩
          simp [hL]
    · exact ⟨hA, hS, hW, hL⟩
  | publish =>
    simp only [step, acceptor_publish]
    split
    · rename_i client_fd hacc
      have hne : client_fd ≠ fd := by
        intro h
        rw [h] at hacc
        exact hA hacc
      split
      · exact ⟨by simp, hne, hW, by simp [Serv.emit, hL]⟩
      · exact ⟨by simp, hne, hW, hL⟩
    · exact ⟨hA, hS, hW, hL⟩
  | worker_check w =>
    simp only [step, worker_check]
    split
    · split
      · exact ⟨hA, hS, hset w _ (by simp) (by simp), hL⟩
      · exact ⟨hA, hS, hset w _ (by simp) (by simp), hL⟩
    · exact ⟨hA, hS, hW, hL⟩
  | take w =>
    simp only [step, worker_take]
    split
    · split
      · exact ⟨hA, hS, hW, hL⟩
      · simp only [take]
        split
        · exact ⟨hA, fun h => hfd h.symm, hset w _ (by simp) (by simp), hL⟩
        · exact ⟨hA, fun h => hfd h.symm, hset w _ (by simp [hS]) (by simp), hL⟩
    · exact ⟨hA, hS, hW, hL⟩
  | serve w client alloc_ok =>
    simp only [step, worker_serve]
    split
    · rename_i c hw
      have hne : c ≠ fd := by
        intro h
        rw [h] at hw
        exact (hW _ (hmem w _ hw)).1 rfl
      split
      · exact ⟨hA, hS, hW, hL⟩
      · exact ⟨hA, hS, hset w _ (by simp) (by simp [hne]), hL⟩
    · exact ⟨hA, hS, hW, hL⟩
  | close w =>
    simp only [step, worker_close]
    split
    · rename_i c hw
      have hne : c ≠ fd := by
        intro h
        rw [h] at hw
        exact (hW _ (hmem w _ hw)).2 rfl
      exact ⟨hA, hS, hset w _ (by simp) (by simp), by simp [Serv.emit, hL, hne.symm]⟩
    · exact ⟨hA, hS, hW, hL⟩
  | post w =>
    simp only [step, worker_post]
    split
    · exact ⟨hA, hS, hset w _ (by simp) (by simp), by simp [hL]⟩
    · exact ⟨hA, hS, hW, hL⟩
  | interrupt =>
    simp only [step, interrupt]
    split
    · exact ⟨hA, hS, hW, hL⟩
    · exact ⟨hA, hS, hW, by simp [shutdown_begin, hL]⟩

/-- A descriptor out of the server's reach stays so along every schedule in
which `accept` does not return it again. -/
theorem handle_lost_run (fd : Int) (hfd : fd ≠ 0) (acts : List Action) (s : Sys)
    (hacts : ∀ a ∈ acts, a ≠ Action.accept fd) (h : handle_lost fd s) :
    handle_lost fd (run s acts) := by
  induction acts generalizing s with
  | nil => exact h
  | cons a rest ih =>
    exact ih (step s a) (fun b hb => hacts b (List.mem_cons_of_mem a hb))
      (handle_lost_step fd hfd s a (hacts a (List.mem_cons_self a rest)) h)

/-- C4, at the failing schedule: with capacity 2, descriptor 4 is admitted and
published, and before any worker runs descriptor 5 is admitted. The acceptor
then stores 5 into a slot that still holds 4; no worker ever held 4, and from
then on the permit that 4 took is never given back, whatever the schedule: at
most one permit is available again. As long as `accept` does not return
descriptor 4 a second time, no worker ever serves it and it is never closed. -/
theorem publish_overwrites_unclaimed_handle :
    (run (init_sys 2) two_accepts).acceptor = AcceptorPc.admitted 5 ∧
    (run (init_sys 2) two_accepts).serv.new_connection_fd = 4 ∧
    (step (run (init_sys 2) two_accepts) Action.publish).serv.new_connection_fd = 5 ∧
    (step (run (init_sys 2) two_accepts) Action.publish).workers =
      [WorkerPc.loop_head, WorkerPc.loop_head] ∧
    (step (run (init_sys 2) two_accepts) Action.publish).serv.client_count_sem = 0 ∧
    Event.close 4 ∉ (step (run (init_sys 2) two_accepts) Action.publish).serv.log ∧
    (∀ acts : List Action,
      (run (step (run (init_sys 2) two_accepts) Action.publish) acts).serv.client_count_sem
        ≤ 1) ∧
    (∀ acts : List Action,
      Event.close 4 ∉ (run (step (run (init_sys 2) two_accepts) Action.publish)
        (acts.filter (fun a => a != Action.accept 4))).serv.log ∧
      ∀ pc ∈ (run (step (run (init_sys 2) two_accepts) Action.publish)
        (acts.filter (fun a => a != Action.accept 4))).workers,
        pc ≠ WorkerPc.serving 4 ∧ pc ≠ WorkerPc.closing 4) := by
  refine ⟨by decide, by decide, by decide, by decide, by decide, by decide, ?_, ?_⟩
  swap
  · intro acts
    have hl := handle_lost_run 4 (by decide) (acts.filter (fun a => a != Action.accept 4))
      (step (run (init_sys 2) two_accepts) Action.publish)
      (fun a ha => by
        have h2 := (List.mem_filter.1 ha).2
        simpa using h2)
      (by decide)
    exact ⟨hl.2.2.2, hl.2.2.1⟩
  intro acts
  have h0 : admission_inv 1 (step (run (init_sys 2) two_accepts) Action.publish) := by
    unfold admission_inv
    decide
  have hinv := admission_inv_run 1 acts _ h0
  have hW := holds_sum_nonneg
    (run (step (run (init_sys 2) two_accepts) Action.publish) acts).workers
  have hA : 0 ≤ (run (step (run (init_sys 2) two_accepts) Action.publish) acts).acceptor.holds := by
    cases (run (step (run (init_sys 2) two_accepts) Action.publish) acts).acceptor <;>
      simp [AcceptorPc.holds]
  have hS : 0 ≤ slot_holds
      (run (step (run (init_sys 2) two_accepts) Action.publish) acts).serv.new_connection_fd := by
    unfold slot_holds
    split <;> omega
  unfold admission_inv in_flight at hinv
  omega

/-! ## A permit that is never given back -/

/-- While no connection is held anywhere, a step other than a return of
`accept` leaves it so, leaves the permit count alone and adds no `sem_post`. -/
theorem nothing_held_step (s : Sys) (a : Action) (ha : a.is_accept = false)
    (h : nothing_held s) :
    nothing_held (step s a) ∧
    (step s a).serv.client_count_sem = s.serv.client_count_sem ∧
    (step s a).serv.log.filter Event.is_sem_post = s.serv.log.filter Event.is_sem_post := by
  obtain ⟨hA, hS, hW⟩ := h
  have hset : ∀ (w : Nat) (x : WorkerPc), x.holds = 0 →
      ∀ pc ∈ s.workers.set w x, pc.holds = 0 := by
    intro w x h1 pc hpc
    rcases List.mem_or_eq_of_mem_set hpc with hm | he
    · exact hW pc hm
    · rw [he]
      exact h1
  have hmem : ∀ (w : Nat) (x : WorkerPc), s.workers[w]? = some x → x.holds = 0 := by
    intro w x hx
    exact hW x (List.getElem?_mem hx)
  cases a with
  | acceptor_check =>
    simp only [step, acceptor_check]
    split
    · split
      · exact ⟨⟨rfl, hS, hW⟩, rfl, rfl⟩
      · exact ⟨⟨rfl, hS, hW⟩, rfl, rfl⟩
    · exact ⟨⟨hA, hS, hW⟩, rfl, rfl⟩
  | accept client_fd => simp [Action.is_accept] at ha
  | publish =>
    simp only [step, acceptor_publish]
    split
    · rename_i client_fd hacc
      rw [hacc] at hA
      simp [AcceptorPc.holds] at hA
    · exact ⟨⟨hA, hS, hW⟩, rfl, rfl⟩
  | worker_check w =>
    simp only [step, worker_check]
    split
    · split
      · exact ⟨⟨hA, hS, hset w _ rfl⟩, rfl, rfl⟩
      · exact ⟨⟨hA, hS, hset w _ rfl⟩, rfl, rfl⟩
    · exact ⟨⟨hA, hS, hW⟩, rfl, rfl⟩
  | take w =>
    simp only [step, worker_take]
    split
    · split
      · exact ⟨⟨hA, hS, hW⟩, rfl, rfl⟩
      · simp only [take]
        split
        · exact ⟨⟨hA, rfl, hset w _ rfl⟩, rfl, rfl⟩
        · rename_i hne
          exact absurd hS.symm hne
    · exact ⟨⟨hA, hS, hW⟩, rfl, rfl⟩
  | serve w client alloc_ok =>
    simp only [step, worker_serve]
    split
    · rename_i c hw
      have := hmem w _ hw
      simp [WorkerPc.holds] at this
    · exact ⟨⟨hA, hS, hW⟩, rfl, rfl⟩
  | close w =>
    simp only [step, worker_close]
    split
    · rename_i c hw
      have := hmem w _ hw
      simp [WorkerPc.holds] at this
    · exact ⟨⟨hA, hS, hW⟩, rfl, rfl⟩
  | post w =>
    simp only [step, worker_post]
    split
    · rename_i hw
      have := hmem w _ hw
      simp [WorkerPc.holds] at this
    · exact ⟨⟨hA, hS, hW⟩, rfl, rfl⟩
  | interrupt =>
    simp only [step, interrupt]
    split
    · exact ⟨⟨hA, hS, hW⟩, rfl, rfl⟩
    · refine ⟨⟨hA, hS, hW⟩, rfl, ?_⟩
      simp [shutdown_begin, Event.is_sem_post]

/-- While no connection is held anywhere, a schedule without a return of
`accept` leaves it so, leaves the permit count alone and adds no `sem_post`. -/
theorem nothing_held_run (acts : List Action) (s : Sys)
    (hacts : ∀ a ∈ acts, a.is_accept = false) (h : nothing_held s) :
    nothing_held (run s acts) ∧
    (run s acts).serv.client_count_sem = s.serv.client_count_sem ∧
    (run s acts).serv.log.filter Event.is_sem_post = s.serv.log.filter Event.is_sem_post := by
  induction acts generalizing s with
  | nil => exact ⟨h, rfl, rfl⟩
  | cons a rest ih =>
    have h1 := nothing_held_step s a (hacts a (List.mem_cons_self a rest)) h
    have h2 := ih (step s a) (fun b hb => hacts b (List.mem_cons_of_mem a hb)) h1.1
    exact ⟨h2.1, h2.2.1.trans h1.2.1, h2.2.2.trans h1.2.2⟩

/-- C3, at the failing schedule. With capacity 2 the acceptor admits descriptor
4 and descriptor 5, each by a successful `sem_trywait`, and publishes both
before any worker has run; worker 0 takes the slot, serves descriptor 5 until
its peer is gone, closes it and posts. Then no connection is held anywhere, two
connections have been admitted and `sem_post` has been called once: the permit
count is 1, not the 2 from before the admissions. It never exceeds 1 again,
whatever the schedule; as long as `accept` returns no further connection it
stays 1 and no further `sem_post` occurs; and as long as `accept` does not
return descriptor 4 again, no worker serves or closes descriptor 4. Besides, of
the ways a session is said to end, a response `send` that fails with `-1` does
not end it: `handle_client` returns true, and returns false only when the
`send` returns a count that is not negative and is below the length of the
response. -/
theorem admitted_connection_never_released :
    (init_sys 2).serv.client_count_sem = 2 ∧
    (run (init_sys 2) [Action.acceptor_check, Action.accept 4]).acceptor =
      AcceptorPc.admitted 4 ∧
    (run (init_sys 2) [Action.acceptor_check, Action.accept 4]).serv.client_count_sem = 1 ∧
    (run (init_sys 2) two_accepts).acceptor = AcceptorPc.admitted 5 ∧
    (run (init_sys 2) two_accepts).serv.client_count_sem = 0 ∧
    (run (init_sys 2) overwrite_then_session).serv.log.drop (init_sys 2).serv.log.length =
      [Event.send 4 handshake_byte, Event.cond_signal, Event.send 5 handshake_byte,
        Event.cond_signal, Event.close 5, Event.sem_post 0] ∧
    nothing_held (run (init_sys 2) overwrite_then_session) ∧
    (run (init_sys 2) overwrite_then_session).workers =
      [WorkerPc.loop_head, WorkerPc.loop_head] ∧
    (run (init_sys 2) overwrite_then_session).serv.client_count_sem = 1 ∧
    (∀ acts : List Action,
      (run (run (init_sys 2) overwrite_then_session) acts).serv.client_count_sem ≤ 1) ∧
    (∀ acts : List Action,
      (run (run (init_sys 2) overwrite_then_session)
        (acts.filter (fun a => !a.is_accept))).serv.client_count_sem = 1 ∧
      (run (run (init_sys 2) overwrite_then_session)
        (acts.filter (fun a => !a.is_accept))).serv.log.filter Event.is_sem_post =
          [Event.sem_post 0]) ∧
    (∀ acts : List Action,
      Event.close 4 ∉ (run (run (init_sys 2) overwrite_then_session)
        (acts.filter (fun a => a != Action.accept 4))).serv.log ∧
      ∀ pc ∈ (run (run (init_sys 2) overwrite_then_session)
        (acts.filter (fun a => a != Action.accept 4))).workers,
        pc ≠ WorkerPc.serving 4 ∧ pc ≠ WorkerPc.closing 4) ∧
    (send (read_from_client request_send_fails (List.replicate (MAX_BUFFER_SIZE + 1) 0)).sock
      response (strnlen response MAX_BUFFER_SIZE)).ret = -1 ∧
    (handle_client request_send_fails true).1 = true ∧
    (send (read_from_client request_send_short (List.replicate (MAX_BUFFER_SIZE + 1) 0)).sock
      response (strnlen response MAX_BUFFER_SIZE)).ret = 3 ∧
    (handle_client request_send_short true).1 = false := by
  have hq : nothing_held (run (init_sys 2) overwrite_then_session) := by decide
  refine ⟨by decide, by decide, by decide, by decide, by decide, by decide, hq, by decide,
    by decide, ?_, ?_, ?_, by decide, by decide, by decide, by decide⟩
  · intro acts
    have h0 : admission_inv 1 (run (init_sys 2) overwrite_then_session) := by
      unfold admission_inv
      decide
    have hinv := admission_inv_run 1 acts _ h0
    have hW := holds_sum_nonneg (run (run (init_sys 2) overwrite_then_session) acts).workers
    have hA : 0 ≤ (run (run (init_sys 2) overwrite_then_session) acts).acceptor.holds := by
      cases (run (run (init_sys 2) overwrite_then_session) acts).acceptor <;>
        simp [AcceptorPc.holds]
    have hS : 0 ≤ slot_holds
        (run (run (init_sys 2) overwrite_then_session) acts).serv.new_connection_fd := by
      unfold slot_holds
      split <;> omega
    unfold admission_inv in_flight at hinv
    omega
  · intro acts
    have hr := nothing_held_run (acts.filter (fun a => !a.is_accept))
      (run (init_sys 2) overwrite_then_session)
      (fun a ha => by
        have h2 := (List.mem_filter.1 ha).2
        simpa using h2)
      hq
    exact ⟨hr.2.1.trans (by decide), hr.2.2.trans (by decide)⟩
  · intro acts
    have hl := handle_lost_run 4 (by decide) (acts.filter (fun a => a != Action.accept 4))
      (run (init_sys 2) overwrite_then_session)
      (fun a ha => by
        have h2 := (List.mem_filter.1 ha).2
        simpa using h2)
      (by decide)
    exact ⟨hl.2.2.2, hl.2.2.1⟩

/-! ## Reading one request -/

/-- Setting the last byte of a 101-byte buffer and dropping the first 100 bytes
leaves the NUL alone. -/
theorem set_last_drop (l : List Nat) (h : l.length = MAX_BUFFER_SIZE + 1) :
    (l.set MAX_BUFFER_SIZE 0).drop MAX_BUFFER_SIZE = [0] := by
  rw [List.drop_set, if_neg (by omega)]
  have h1 : (l.drop MAX_BUFFER_SIZE).length = 1 := by
    rw [List.length_drop, h]
    omega
  obtain ⟨a, ha⟩ := List.length_eq_one.1 h1
  rw [ha]
  simp

/-- Sanitising keeps the length of the buffer. -/
theorem sanitize_input_string_length (l : List Nat) :
    (sanitize_input_string l).length = l.length := by
  induction l with
  | nil => rfl
  | cons c rest ih =>
    unfold sanitize_input_string
    split
    · rfl
    · split
      · rfl
      · split <;> simp [ih]

/-- Sanitising never reaches past a NUL at the end of the buffer. -/
theorem sanitize_input_string_append_nul (l : List Nat) :
    sanitize_input_string (l ++ [0]) = sanitize_input_string l ++ [0] := by
  induction l with
  | nil => rfl
  | cons c rest ih =>
    rw [List.cons_append, sanitize_input_string, sanitize_input_string]
    split
    · rfl
    · split
      · rfl
      · split <;> simp [ih]

/-- A `send` that fails with `-1` goes unnoticed by the test of serv_lib.c 200:
with 101 bytes pending and the notice not sent at all, `-1` converted to
`size_t` is above the length of the notice, the socket is purged and
`read_from_client` returns `SOCK_READ_SUCCESS` with the buffer sanitised. -/
theorem read_from_client_failed_send_unnoticed :
    (send (consume_recv long_request_send_fails (List.replicate 101 0)).sock message_too_long
      (strnlen message_too_long MAX_BUFFER_SIZE)).ret = -1 ∧
    ¬ notice_send_short long_request_send_fails (List.replicate 101 0) ∧
    (read_from_client long_request_send_fails (List.replicate 101 0)).status =
      SOCK_READ_SUCCESS ∧
    (read_from_client long_request_send_fails (List.replicate 101 0)).buf =
      List.replicate 100 32 ++ [0] ∧
    (send (consume_recv long_request_send_fails (List.replicate 101 0)).sock message_too_long
      (strnlen message_too_long MAX_BUFFER_SIZE)).sock.outbox = [] := by
  refine ⟨by decide, by decide, by decide, by decide, by decide⟩

/-- C10: for every request of more than 100 bytes pending on a byte-queue
socket (no failing receive, no failing send) and a 101-byte buffer,
`read_from_client` sends the over-length notice, returns `SOCK_READ_SUCCESS`,
leaves in the buffer the sanitised first 100 bytes of the request followed by
NUL at index 100, and `purge_socket` ends with every remaining byte removed:
the queue is empty and the socket is blocking again. -/
theorem read_from_client_truncates (s : Sock) (p_buffer : List Nat)
    (hlen : MAX_BUFFER_SIZE < s.queue.length) (hrecv : s.recv_err = false)
    (hsend : s.send_err = false) (hbuf : p_buffer.length = MAX_BUFFER_SIZE + 1) :
    (read_from_client s p_buffer).status = SOCK_READ_SUCCESS ∧
    (read_from_client s p_buffer).sock.outbox = s.outbox ++ [message_too_long] ∧
    (read_from_client s p_buffer).buf =
      sanitize_input_string (s.queue.take MAX_BUFFER_SIZE ++ [0]) ∧
    (read_from_client s p_buffer).buf =
      sanitize_input_string (s.queue.take MAX_BUFFER_SIZE) ++ [0] ∧
    (read_from_client s p_buffer).buf.length = MAX_BUFFER_SIZE + 1 ∧
    (read_from_client s p_buffer).buf[MAX_BUFFER_SIZE]? = some 0 ∧
    (read_from_client s p_buffer).sock.queue = [] ∧
    (read_from_client s p_buffer).sock.nonblock = false ∧
    (purge_socket { s with queue := s.queue.drop MAX_BUFFER_SIZE }).queue = [] := by
  have hq : s.queue ≠ [] := by
    intro h
    rw [h] at hlen
    simp at hlen
  have hpk : peek_recv s p_buffer =
      ⟨(MAX_BUFFER_SIZE + 1 : Nat), s.queue.take (MAX_BUFFER_SIZE + 1), s⟩ := by
    unfold peek_recv
    rw [(recv_eq s p_buffer (MAX_BUFFER_SIZE + 1) true).2.2 hrecv hq]
    have hl : (s.queue.take (MAX_BUFFER_SIZE + 1)).length = MAX_BUFFER_SIZE + 1 := by
      rw [List.length_take]
      omega
    rw [hl, List.drop_eq_nil_of_le (by omega)]
    simp
  have hrd : consume_recv s p_buffer =
      ⟨(MAX_BUFFER_SIZE : Nat), s.queue.take MAX_BUFFER_SIZE ++ [0],
        { s with queue := s.queue.drop MAX_BUFFER_SIZE }⟩ := by
    unfold consume_recv
    simp only [hpk]
    rw [(recv_eq s _ MAX_BUFFER_SIZE false).2.2 hrecv hq]
    have hl : (s.queue.take MAX_BUFFER_SIZE).length = MAX_BUFFER_SIZE := by
      rw [List.length_take]
      omega
    have hl1 : (s.queue.take (MAX_BUFFER_SIZE + 1)).length = MAX_BUFFER_SIZE + 1 := by
      rw [List.length_take]
      omega
    rw [hl, set_last_drop _ hl1]
    simp
  have hmsg : strnlen message_too_long MAX_BUFFER_SIZE = message_too_long.length := by decide
  have hmsg2 : message_too_long.take message_too_long.length = message_too_long :=
    List.take_length _
  have hread : read_from_client s p_buffer =
      ⟨SOCK_READ_SUCCESS, sanitize_input_string (s.queue.take MAX_BUFFER_SIZE ++ [0]),
        { s with queue := [], nonblock := false, outbox := s.outbox ++ [message_too_long] }⟩ := by
    unfold read_from_client
    simp only [hpk, hrd, send, hsend, hmsg, hmsg2]
    rw [if_pos (by simp only [MAX_BUFFER_SIZE]; omega)]
    have hsz : ¬ (message_too_long.length >
        size_t_of_int ((message_too_long.length : Nat) : Int)) := by decide
    simp only [Bool.false_eq_true, if_false, hsz]
    rw [purge_socket_eq]
    simp only [hrecv, Bool.false_eq_true, if_false]
    unfold read_status
    rw [if_neg (by simp only [MAX_BUFFER_SIZE]; omega), if_neg (by simp only [MAX_BUFFER_SIZE]; omega)]
  have hlen2 : (s.queue.take MAX_BUFFER_SIZE).length = MAX_BUFFER_SIZE := by
    rw [List.length_take]
    omega
  rw [hread]
  refine ⟨rfl, rfl, rfl, sanitize_input_string_append_nul _, ?_, ?_, rfl, rfl, ?_⟩
  · simp only [sanitize_input_string_length, List.length_append, hlen2, List.length_singleton]
  · simp only [sanitize_input_string_append_nul]
    rw [List.getElem?_append_right (by rw [sanitize_input_string_length, hlen2])]
    simp [sanitize_input_string_length, hlen2]
  · rw [purge_socket_eq]
    simp [hrecv]

/-- Witness for C10: a request of 150 bytes `'7'`. -/
theorem read_from_client_truncates_witness :
    MAX_BUFFER_SIZE < (Sock.mk (List.replicate 150 55) false false false [] none).queue.length ∧
    (read_from_client (Sock.mk (List.replicate 150 55) false false false [] none)
      (List.replicate 101 0)).sock.queue = [] :=
  ⟨by simp [MAX_BUFFER_SIZE],
   (read_from_client_truncates (Sock.mk (List.replicate 150 55) false false false [] none)
      (List.replicate 101 0) (by simp [MAX_BUFFER_SIZE]) rfl rfl
      (by simp [MAX_BUFFER_SIZE])).2.2.2.2.2.2.1⟩

/-! ## Start-up -/

/-- The creation loop keeps the flag and the capacity, and succeeds when no
creation returns a negative value. -/
theorem create_threads_keeps (env : InitEnv) (todo : Nat) (p : Serv) (i : Nat) :
    (create_threads env p i todo).2.b_running = p.b_running ∧
    (create_threads env p i todo).2.max_connections = p.max_connections ∧
    ((∀ j, 0 ≤ env.thread_create j) → (create_threads env p i todo).1 = true) := by
  induction todo generalizing p i with
  | zero => simp [create_threads]
  | succ n ih =>
    rw [create_threads]
    split
    · rename_i hneg
      refine ⟨rfl, rfl, ?_⟩
      intro h
      have := h i
      omega
    · obtain ⟨h1, h2, h3⟩ := ih (p.emit [Event.thread_create i]) (i + 1)
      exact ⟨h1, h2, h3⟩

/-- C11, at the failing inputs. When `sem_init` fails, `init_server` returns
`SERV_INIT_FAILURE` and the accept loop is not entered, but `main` discards
that value and ends with exit status `0`. When `pthread_mutex_init` fails with
the error number `ENOMEM`, the test `0 > err` does not fire: `init_server`
returns `SERV_INIT_SUCCESS` and the accept loop is entered. In general `main`
never ends with a non-zero status after the call of `init_server`, and
`init_server` reports success whenever no call returns a negative value. -/
theorem init_failure_not_reported :
    (init_server init_sem_fails (g_serv 2)).1 = SERV_INIT_FAILURE ∧
    (main_start init_sem_fails 2).enters_loop = false ∧
    (main_start init_sem_fails 2).exit_status = some 0 ∧
    (init_server init_mutex_fails (g_serv 2)).1 = SERV_INIT_SUCCESS ∧
    (main_start init_mutex_fails 2).enters_loop = true ∧
    (∀ (env : InitEnv) (thread_count : Int),
      (main_start env thread_count).exit_status = none ∨
      (main_start env thread_count).exit_status = some 0) ∧
    (∀ (env : InitEnv) (p : Serv),
      0 ≤ env.mutex_init ∧ 0 ≤ env.cond_init ∧ (∀ j, 0 ≤ env.thread_create j) ∧
        0 ≤ env.sem_init →
      (init_server env p).1 = SERV_INIT_SUCCESS ∧ (init_server env p).2.b_running = true) := by
  refine ⟨by decide, by decide, by decide, by decide, by decide, ?_, ?_⟩
  · intro env thread_count
    unfold main_start
    simp only []
    split
    · exact Or.inl rfl
    · exact Or.inr rfl
  · intro env p ⟨h1, h2, h3, h4⟩
    have hk := create_threads_keeps env p.max_connections.toNat
      { p with b_running := true,
               log := p.log ++ [Event.store_running true, Event.calloc_thread_ids,
                 Event.mutex_init, Event.cond_init] } 0
    have hct := hk.2.2 h3
    have hrun := hk.1
    unfold init_server
    simp only [Serv.emit, List.append_assoc, List.cons_append, List.nil_append,
      List.singleton_append]
    rw [if_neg (by omega), if_neg (by omega)]
    simp only [hct, Bool.not_true, Bool.false_eq_true, if_false]
    rw [if_neg (by omega)]
    exact ⟨rfl, hrun⟩

/-! ## Command-line numbers -/

/-- A run of `n` digits has a value below `10 ^ n`, whatever was read before. -/
theorem digits_foldl_bound (ds : List Nat) (acc : Nat) (h : ∀ c ∈ ds, isdigit c = true) :
    ds.foldl (fun a d => 10 * a + (d - 48)) acc < (acc + 1) * 10 ^ ds.length := by
  induction ds generalizing acc with
  | nil => simp
  | cons c r ih =>
    have hc := h c (List.mem_cons_self c r)
    have hcd : c - 48 ≤ 9 := by
      simp only [isdigit, Bool.and_eq_true, decide_eq_true_eq] at hc
      omega
    have hr := ih (10 * acc + (c - 48)) (fun x hx => h x (List.mem_cons_of_mem c hx))
    simp only [List.foldl_cons, List.length_cons, pow_succ]
    calc List.foldl (fun a d => 10 * a + (d - 48)) (10 * acc + (c - 48)) r
        < (10 * acc + (c - 48) + 1) * 10 ^ r.length := hr
      _ ≤ (10 * (acc + 1)) * 10 ^ r.length := Nat.mul_le_mul_right _ (by omega)
      _ = (acc + 1) * (10 ^ r.length * 10) := by ring

/-- A run of `n` digits has a value below `10 ^ n`. -/
theorem digits_value_lt (ds : List Nat) (h : ∀ c ∈ ds, isdigit c = true) :
    digits_value ds < 10 ^ ds.length := by
  have hb := digits_foldl_bound ds 0 h
  simpa [digits_value] using hb

/-- A run of at most five digits has a value below `100000`. -/
theorem digits_value_short (ds : List Nat) (h : ∀ c ∈ ds, isdigit c = true)
    (hlen : ds.length ≤ 5) : digits_value ds < 100000 := by
  have h1 := digits_value_lt ds h
  have h2 : 10 ^ ds.length ≤ 10 ^ 5 := Nat.pow_le_pow_right (by decide) hlen
  have h3 : (10 : Nat) ^ 5 = 100000 := by norm_num
  omega

/-- Overwriting a byte inside the C string with NUL cuts the C string there. -/
theorem cstr_set_nul (l : List Nat) (k : Nat) (hk : k < (cstr l).length) :
    cstr (l.set k 0) = (cstr l).take k := by
  unfold cstr at hk ⊢
  induction l generalizing k with
  | nil => simp at hk
  | cons a t ih =>
    by_cases ha : (a != 0) = true
    · simp only [List.takeWhile_cons, ha, if_true, List.length_cons] at hk
      cases k with
      | zero => simp [List.takeWhile_cons]
      | succ n =>
        simp only [List.set_cons_succ, List.takeWhile_cons, ha, if_true, List.take_succ_cons,
          ih n (by omega)]
    · simp only [List.takeWhile_cons, ha, Bool.false_eq_true, if_false, List.length_nil] at hk
      omega

/-- A piece of a C string holds no NUL, so it is its own C string. -/
theorem cstr_take_cstr (l : List Nat) (k : Nat) : cstr ((cstr l).take k) = (cstr l).take k := by
  unfold cstr
  rw [List.takeWhile_eq_self_iff]
  intro x hx
  exact @List.mem_takeWhile_imp _ (fun c => c != 0) l x (List.mem_of_mem_take hx)

/-- The cut of serv_lib.c 57-60 leaves the first five bytes of the C string. -/
theorem cstr_truncate (str : List Nat) :
    cstr (if 5 < strnlen str 6 then str.set 5 0 else str) = (cstr str).take 5 := by
  unfold strnlen
  by_cases h : 5 < min (cstr str).length 6
  · rw [if_pos h]
    exact cstr_set_nul str 5 (by omega)
  · rw [if_neg h, List.take_of_length_le (by omega)]

/-- The result of `strtol` depends on the C string alone. -/
theorem strtol_congr (a b : List Nat) (h : cstr a = cstr b) : strtol a = strtol b := by
  unfold strtol
  rw [h]

/-- The range test at the end of `strtol` lets a small magnitude through. -/
theorem strtol_range_small (m : Nat) (b : Bool) (hm : m < 100000) :
    -100000 < (if LONG_MAX < (if b = true then -(m : Int) else (m : Int)) then
        (⟨LONG_MAX, ERANGE⟩ : StrtolResult)
      else if (if b = true then -(m : Int) else (m : Int)) < LONG_MIN then ⟨LONG_MIN, ERANGE⟩
      else ⟨if b = true then -(m : Int) else (m : Int), 0⟩).value ∧
    (if LONG_MAX < (if b = true then -(m : Int) else (m : Int)) then
        (⟨LONG_MAX, ERANGE⟩ : StrtolResult)
      else if (if b = true then -(m : Int) else (m : Int)) < LONG_MIN then ⟨LONG_MIN, ERANGE⟩
      else ⟨if b = true then -(m : Int) else (m : Int), 0⟩).value < 100000 ∧
    (if LONG_MAX < (if b = true then -(m : Int) else (m : Int)) then
        (⟨LONG_MAX, ERANGE⟩ : StrtolResult)
      else if (if b = true then -(m : Int) else (m : Int)) < LONG_MIN then ⟨LONG_MIN, ERANGE⟩
      else ⟨if b = true then -(m : Int) else (m : Int), 0⟩).errno = 0 := by
  have h1 : ¬ (LONG_MAX < (if b = true then -(m : Int) else (m : Int))) := by
    simp only [LONG_MAX]
    split <;> omega
  have h2 : ¬ ((if b = true then -(m : Int) else (m : Int)) < LONG_MIN) := by
    simp only [LONG_MIN]
    split <;> omega
  rw [if_neg h1, if_neg h2]
  refine ⟨?_, ?_, rfl⟩
  · show -100000 < (if b = true then -(m : Int) else (m : Int))
    split <;> omega
  · show (if b = true then -(m : Int) else (m : Int)) < 100000
    split <;> omega

/-- On a string of at most five bytes `strtol` stays far inside the range of
`int` and leaves `errno` at zero. -/
theorem strtol_short (t : List Nat) (hlen : (cstr t).length ≤ 5) :
    -100000 < (strtol t).value ∧ (strtol t).value < 100000 ∧ (strtol t).errno = 0 := by
  have hs : ((cstr t).dropWhile isspace).length ≤ 5 :=
    Nat.le_trans (List.dropWhile_suffix isspace).length_le hlen
  have hbody : ∀ s : List Nat, s.length ≤ 5 → (strtol_body s).length ≤ 5 := by
    intro s h
    unfold strtol_body
    split
    · simp only [List.length_cons] at h
      omega
    · simp only [List.length_cons] at h
      omega
    · exact h
  have hmag : ∀ body : List Nat, body.length ≤ 5 →
      digits_value (body.takeWhile isdigit) < 100000 := by
    intro body h
    exact digits_value_short _ (fun c hc => List.mem_takeWhile_imp hc)
      (Nat.le_trans (List.takeWhile_prefix isdigit).length_le h)
  have hm := hmag _ (hbody _ hs)
  unfold strtol
  exact strtol_range_small _ _ hm

/-- Small values pass the conversion from `long` to `int` unchanged. -/
theorem int_of_long_small (v : Int) (h1 : -2147483648 ≤ v) (h2 : v ≤ 2147483647) :
    int_of_long v = v := by
  unfold int_of_long
  omega

/-- On a decimal numeral `strtol` returns its value, or `LONG_MAX` with
`ERANGE` when the value does not fit. -/
theorem strtol_numeral (ds : List Nat) (h : is_numeral ds) :
    strtol ds =
      if LONG_MAX < (digits_value ds : Int) then ⟨LONG_MAX, ERANGE⟩
      else ⟨(digits_value ds : Int), 0⟩ := by
  obtain ⟨hne, hd⟩ := h
  have hc : cstr ds = ds := by
    unfold cstr
    rw [List.takeWhile_eq_self_iff]
    intro x hx
    have := hd x hx
    simp only [isdigit, Bool.and_eq_true, decide_eq_true_eq] at this
    simp only [bne_iff_ne, ne_eq]
    omega
  have ht : ds.takeWhile isdigit = ds := by
    rw [List.takeWhile_eq_self_iff]
    exact hd
  cases ds with
  | nil => exact absurd rfl hne
  | cons c r =>
    have hcd := hd c (List.mem_cons_self c r)
    simp only [isdigit, Bool.and_eq_true, decide_eq_true_eq] at hcd
    have hsp : ¬ (isspace c = true) := by
      simp only [isspace, Bool.or_eq_true, beq_iff_eq, Bool.and_eq_true, decide_eq_true_eq]
      omega
    have h45 : c ≠ 45 := by omega
    have h43 : c ≠ 43 := by omega
    have hneg : strtol_negative (c :: r) = false := by
      unfold strtol_negative
      split
      · rename_i heq
        simp only [List.cons.injEq] at heq
        exact absurd heq.1 h45
      · rfl
    have hbody : strtol_body (c :: r) = c :: r := by
      unfold strtol_body
      split
      · rename_i heq
        simp only [List.cons.injEq] at heq
        exact absurd heq.1 h45
      · rename_i heq
        simp only [List.cons.injEq] at heq
        exact absurd heq.1 h43
      · rfl
    have hnn : ¬ ((digits_value (c :: r) : Int) < LONG_MIN) := by
      simp only [LONG_MIN]
      omega
    unfold strtol
    simp only [hc, List.dropWhile_cons_of_neg hsp, hneg, hbody, ht, Bool.false_eq_true, if_false,
      hnn]

/-- Reading further digits never lowers the value read so far. -/
theorem digits_foldl_ge (ds : List Nat) (acc : Nat) :
    acc ≤ ds.foldl (fun a d => 10 * a + (d - 48)) acc := by
  induction ds generalizing acc with
  | nil => exact Nat.le_refl _
  | cons c r ih =>
    simp only [List.foldl_cons]
    exact Nat.le_trans (by omega) (ih (10 * acc + (c - 48)))

/-- The first digits of a run have a value that is at most the value of the run. -/
theorem digits_value_take_le (ds : List Nat) (n : Nat) :
    digits_value (ds.take n) ≤ digits_value ds := by
  have h : digits_value ds =
      (ds.drop n).foldl (fun a d => 10 * a + (d - 48)) (digits_value (ds.take n)) := by
    unfold digits_value
    rw [← List.foldl_append, List.take_append_drop]
  rw [h]
  exact digits_foldl_ge _ _

/-- Skipping white space in the first `n` bytes. -/
theorem dropWhile_take (p : Nat → Bool) (l : List Nat) (n : Nat) :
    (l.take n).dropWhile p = (l.dropWhile p).take (n - (l.takeWhile p).length) := by
  induction l generalizing n with
  | nil => simp
  | cons a r ih =>
    cases n with
    | zero => simp
    | succ m =>
      by_cases ha : p a = true
      · simp only [List.take_succ_cons, List.dropWhile_cons, ha, if_true, List.takeWhile_cons,
          List.length_cons, ih m]
        congr 1
        omega
      · simp only [List.take_succ_cons, List.dropWhile_cons, ha, Bool.false_eq_true, if_false,
          List.takeWhile_cons, List.length_nil, Nat.sub_zero]

/-- The range test at the end of `strtol`: the result is at most zero exactly
when the sign is negative or the magnitude is zero. -/
theorem strtol_range_sign (m : Nat) (b : Bool) :
    (if LONG_MAX < (if b = true then -(m : Int) else (m : Int)) then
        (⟨LONG_MAX, ERANGE⟩ : StrtolResult)
      else if (if b = true then -(m : Int) else (m : Int)) < LONG_MIN then ⟨LONG_MIN, ERANGE⟩
      else ⟨if b = true then -(m : Int) else (m : Int), 0⟩).value ≤ 0 ↔
    (b = true ∨ m = 0) := by
  cases b
  · simp only [Bool.false_eq_true, if_false, false_or]
    by_cases h1 : LONG_MAX < (m : Int)
    · rw [if_pos h1]
      simp only [LONG_MAX] at h1 ⊢
      omega
    · rw [if_neg h1]
      have h2 : ¬ ((m : Int) < LONG_MIN) := by
        simp only [LONG_MIN]
        omega
      rw [if_neg h2]
      show (m : Int) ≤ 0 ↔ m = 0
      omega
  · simp only [if_true, true_or, iff_true]
    have h1 : ¬ (LONG_MAX < -(m : Int)) := by
      simp only [LONG_MAX]
      omega
    rw [if_neg h1]
    by_cases h2 : -(m : Int) < LONG_MIN
    · rw [if_pos h2]
      simp only [LONG_MIN]
      omega
    · rw [if_neg h2]
      show -(m : Int) ≤ 0
      omega

/-- The value of `strtol` is at most zero exactly when the text has a minus
sign or its digits have the value zero. -/
theorem strtol_nonpos_iff (t : List Nat) :
    (strtol t).value ≤ 0 ↔
      (strtol_negative ((cstr t).dropWhile isspace) = true ∨
        digits_value ((strtol_body ((cstr t).dropWhile isspace)).takeWhile isdigit) = 0) := by
  unfold strtol
  exact strtol_range_sign _ _

/-- A text with a minus sign or without a positive digit value keeps that
property when it is cut short. -/
theorem strtol_sign_take (s : List Nat) (j : Nat)
    (h : strtol_negative s = true ∨ digits_value ((strtol_body s).takeWhile isdigit) = 0) :
    strtol_negative (s.take j) = true ∨
      digits_value ((strtol_body (s.take j)).takeWhile isdigit) = 0 := by
  have hzero : ∀ (l : List Nat) (n : Nat), digits_value (l.takeWhile isdigit) = 0 →
      digits_value ((l.take n).takeWhile isdigit) = 0 := by
    intro l n hl
    have := digits_value_take_le (l.takeWhile isdigit) n
    rw [List.take_takeWhile] at this
    omega
  cases j with
  | zero => exact Or.inr rfl
  | succ n =>
    cases s with
    | nil => exact Or.inr rfl
    | cons c r =>
      by_cases h45 : c = 45
      · subst h45
        exact Or.inl rfl
      · by_cases h43 : c = 43
        · subst h43
          rcases h with h | h
          · cases h
          · right
            exact hzero r n h
        · have hb : ∀ x : List Nat, strtol_body (c :: x) = c :: x := by
            intro x
            unfold strtol_body
            split
            · rename_i heq
              simp only [List.cons.injEq] at heq
              exact absurd heq.1 h45
            · rename_i heq
              simp only [List.cons.injEq] at heq
              exact absurd heq.1 h43
            · rfl
          have hn : strtol_negative (c :: r) = false := by
            unfold strtol_negative
            split
            · rename_i heq
              simp only [List.cons.injEq] at heq
              exact absurd heq.1 h45
            · rfl
          rcases h with h | h
          · rw [hn] at h
            cases h
          · right
            rw [hb] at h
            rw [List.take_succ_cons, hb, ← List.take_succ_cons]
            exact hzero (c :: r) (n + 1) h

/-- When `strtol` gives a value of at most zero on the whole string, it does so
on its first five bytes too. -/
theorem strtol_take_nonpos (str : List Nat) (h : (strtol str).value ≤ 0) :
    (strtol ((cstr str).take 5)).value ≤ 0 := by
  rw [strtol_nonpos_iff] at h ⊢
  rw [cstr_take_cstr, dropWhile_take]
  exact strtol_sign_take _ _ h

/-- In both sources the port conversion is the same function of the string. -/
theorem cli_convert_port_number_eq (p_string : Option (List Nat)) :
    cli_convert_port_number INVALID_PORT p_string = convert_port_number p_string := by
  cases p_string <;> rfl

/-- The port conversion judges the first five bytes of the C string. -/
theorem convert_port_number_truncates (str : List Nat) :
    convert_port_number (some str) = convert_port_number (some ((cstr str).take 5)) := by
  have h1 := cstr_truncate str
  have h2 := cstr_truncate ((cstr str).take 5)
  rw [cstr_take_cstr, List.take_take, Nat.min_self] at h2
  have h3 := strtol_congr _ _ (h1.trans h2.symm)
  unfold convert_port_number
  simp only [h3]

/-- C12, counterexample: for a missing string `convert_thread_count` returns
`INVALID_PORT`, which is `-1` and below `MIN_THREADS`. -/
theorem convert_thread_count_null :
    convert_thread_count none = INVALID_PORT ∧
    convert_thread_count none = -1 ∧
    ¬ (MIN_THREADS ≤ convert_thread_count none) := by
  refine ⟨by decide, by decide, by decide⟩

/-- C12, amended: for every string that is present `convert_thread_count`
returns at least `MIN_THREADS`; a decimal numeral of value `n` with
`2 ≤ n ≤ INT_MAX` yields `n`; a value below 2, text without digits, a value
outside the range of `long` and a value that wraps when narrowed to `int` yield
2 or more. The missing string is the one input with a result below 2, and
`main` never passes it: whatever the `-n` option holds, and without one, the
pool size it computes is at least `MIN_THREADS`, and it is 2 without the
option. -/
theorem convert_thread_count_present (str : List Nat) :
    MIN_THREADS ≤ convert_thread_count (some str) ∧
    (is_numeral str → 2 ≤ digits_value str → (digits_value str : Int) ≤ INT_MAX →
      convert_thread_count (some str) = (digits_value str : Int)) ∧
    convert_thread_count (some (str_bytes "8")) = 8 ∧
    convert_thread_count (some (str_bytes "2147483647")) = INT_MAX ∧
    convert_thread_count (some (str_bytes "1")) = 2 ∧
    convert_thread_count (some (str_bytes "-3")) = 2 ∧
    convert_thread_count (some (str_bytes "abc")) = 2 ∧
    convert_thread_count (some (str_bytes "")) = 2 ∧
    convert_thread_count (some (str_bytes "99999999999999999999")) = 2 ∧
    convert_thread_count (some (str_bytes "2147483648")) = 2 ∧
    convert_thread_count (some (str_bytes "4294967297")) = 2 ∧
    convert_thread_count (some (str_bytes "4294967299")) = 3 ∧
    (∀ n_optarg : Option (List Nat), MIN_THREADS ≤ main_thread_count n_optarg) ∧
    main_thread_count none = 2 := by
  have hall : ∀ s : List Nat, MIN_THREADS ≤ convert_thread_count (some s) := by
    intro s
    unfold convert_thread_count
    simp only []
    split
    · exact Int.le_refl _
    · split
      · exact Int.le_refl _
      · omega
  refine ⟨hall str, ?_, by decide, by decide, by decide, by decide, by decide, by decide,
    by decide, by decide, by decide, by decide, ?_, by decide⟩
  · intro hnum h2 hmax
    unfold convert_thread_count
    simp only [INT_MAX] at hmax
    have hlong : ¬ (LONG_MAX < (digits_value str : Int)) := by
      simp only [LONG_MAX]
      omega
    simp only [strtol_numeral str hnum, if_neg hlong, ne_eq, not_true_eq_false, if_false]
    rw [int_of_long_small _ (by omega) (by omega), if_neg (by simp only [MIN_THREADS]; omega)]
  · intro n_optarg
    unfold main_thread_count
    exact hall _

/-- C14, at the failing inputs: `"100000"` and `"655359"` are decimal numerals of
value above 65535, and `convert_port_number`, which cuts its argument to five
characters before it parses, returns the ports 10000 and 65535 for them, not
`INVALID_PORT`; so does the client's copy of the function. -/
theorem convert_port_number_accepts_long_numerals :
    is_numeral (str_bytes "100000") ∧ 65535 < digits_value (str_bytes "100000") ∧
    convert_port_number (some (str_bytes "100000")) = 10000 ∧
    convert_port_number (some (str_bytes "100000")) ≠ INVALID_PORT ∧
    is_numeral (str_bytes "655359") ∧ 65535 < digits_value (str_bytes "655359") ∧
    convert_port_number (some (str_bytes "655359")) = 65535 ∧
    convert_port_number (some (str_bytes "655359")) ≠ INVALID_PORT ∧
    cli_convert_port_number INVALID_PORT (some (str_bytes "100000")) = 10000 := by
  refine ⟨by decide, by decide, by decide, by decide, by decide, by decide, by decide,
    by decide, by decide⟩

/-- On numerals that the cut does not touch the range test works: for every
decimal numeral of at most five characters, `convert_port_number` returns
`INVALID_PORT` when the value is above 65535 and returns the value `n` when
`1 ≤ n ≤ 65535`; the client's copy of the function returns the same. -/
theorem convert_port_number_five_chars (ds : List Nat) (hnum : is_numeral ds)
    (hlen : ds.length ≤ 5) :
    (65535 < digits_value ds → convert_port_number (some ds) = INVALID_PORT) ∧
    (1 ≤ digits_value ds → digits_value ds ≤ 65535 →
      convert_port_number (some ds) = (digits_value ds : Int)) ∧
    cli_convert_port_number INVALID_PORT (some ds) = convert_port_number (some ds) := by
  have hv := digits_value_short ds hnum.2 hlen
  have hc : cstr ds = ds := by
    unfold cstr
    rw [List.takeWhile_eq_self_iff]
    intro x hx
    have := hnum.2 x hx
    simp only [isdigit, Bool.and_eq_true, decide_eq_true_eq] at this
    simp only [bne_iff_ne, ne_eq]
    omega
  have hcut : ¬ (5 < strnlen ds 6) := by
    unfold strnlen
    rw [hc]
    omega
  have hlong : ¬ (LONG_MAX < (digits_value ds : Int)) := by
    simp only [LONG_MAX]
    omega
  have hconv : convert_port_number (some ds) =
      if 0 ≥ (digits_value ds : Int) ∨ 65535 < (digits_value ds : Int) then INVALID_PORT
      else (digits_value ds : Int) := by
    unfold convert_port_number
    simp only [if_neg hcut, strtol_numeral ds hnum, if_neg hlong, ne_eq, not_true_eq_false,
      if_false]
    rw [int_of_long_small _ (by omega) (by omega)]
  refine ⟨?_, ?_, cli_convert_port_number_eq _⟩
  · intro h
    rw [hconv, if_pos (Or.inr (by omega))]
  · intro h1 h2
    rw [hconv, if_neg (by omega)]

/-- The port conversion in terms of `strtol` on the string as the function has
cut it: the value itself when it lies between 1 and 65535, and `INVALID_PORT`
otherwise. -/
theorem convert_port_number_eq (str : List Nat) :
    convert_port_number (some str) =
      if 1 ≤ (strtol (if 5 < strnlen str 6 then str.set 5 0 else str)).value ∧
          (strtol (if 5 < strnlen str 6 then str.set 5 0 else str)).value ≤ 65535 then
        (strtol (if 5 < strnlen str 6 then str.set 5 0 else str)).value
      else INVALID_PORT := by
  have hlen : (cstr (if 5 < strnlen str 6 then str.set 5 0 else str)).length ≤ 5 := by
    rw [cstr_truncate, List.length_take]
    omega
  obtain ⟨hlo, hhi, herr⟩ := strtol_short _ hlen
  unfold convert_port_number
  simp only [herr, ne_eq, not_true_eq_false, if_false]
  rw [int_of_long_small _ (by omega) (by omega)]
  by_cases h : 1 ≤ (strtol (if 5 < strnlen str 6 then str.set 5 0 else str)).value ∧
      (strtol (if 5 < strnlen str 6 then str.set 5 0 else str)).value ≤ 65535
  · rw [if_pos h, if_neg (by omega)]
  · rw [if_neg h, if_pos (by omega)]

/-- C13, at the failing input and around it. The port argument `"100000"` is a
numeral of value 100000, outside the valid range, and the check `0 > port_number`
of `main` does not reject it: `convert_port_number` cuts it to `"10000"` and
returns 10000. What the check does is this. Every result of
`convert_port_number` is `INVALID_PORT` or a port between 1 and 65535. A missing
string, every string whose parsed value is not positive, and text without
digits are rejected. A string is let through exactly when `strtol` on its first
five characters gives a value between 1 and 65535, and that value is the port.
So for numerals of at most five characters the check rejects exactly the values
outside 1..65535 and hands on the value of every other. -/
theorem port_check_accepts_long_numeral :
    is_numeral (str_bytes "100000") ∧
    (strtol (str_bytes "100000")).value = 100000 ∧
    convert_port_number (some (str_bytes "100000")) = 10000 ∧
    main_rejects_port (some (str_bytes "100000")) = false ∧
    (∀ p_string : Option (List Nat),
      convert_port_number p_string = INVALID_PORT ∨
      (1 ≤ convert_port_number p_string ∧ convert_port_number p_string ≤ 65535)) ∧
    convert_port_number none = INVALID_PORT ∧
    main_rejects_port none = true ∧
    (∀ str : List Nat, (strtol str).value ≤ 0 →
      convert_port_number (some str) = INVALID_PORT ∧ main_rejects_port (some str) = true) ∧
    main_rejects_port (some (str_bytes "abc")) = true ∧
    main_rejects_port (some (str_bytes "0")) = true ∧
    main_rejects_port (some (str_bytes "-5")) = true ∧
    (∀ p_string : Option (List Nat),
      main_rejects_port p_string = true ↔ convert_port_number p_string = INVALID_PORT) ∧
    (∀ str : List Nat,
      (main_rejects_port (some str) = false ↔
        1 ≤ (strtol ((cstr str).take 5)).value ∧ (strtol ((cstr str).take 5)).value ≤ 65535) ∧
      (main_rejects_port (some str) = false →
        convert_port_number (some str) = (strtol ((cstr str).take 5)).value)) ∧
    (∀ ds : List Nat, is_numeral ds → ds.length ≤ 5 →
      (main_rejects_port (some ds) = false ↔ 1 ≤ digits_value ds ∧ digits_value ds ≤ 65535) ∧
      (1 ≤ digits_value ds → digits_value ds ≤ 65535 →
        convert_port_number (some ds) = (digits_value ds : Int))) ∧
    convert_port_number (some (str_bytes "1")) = 1 ∧
    main_rejects_port (some (str_bytes "1")) = false ∧
    convert_port_number (some (str_bytes "8080")) = 8080 ∧
    convert_port_number (some (str_bytes "65535")) = 65535 ∧
    main_rejects_port (some (str_bytes "65535")) = false ∧
    main_rejects_port (some (str_bytes "65536")) = true := by
  have hrange : ∀ p_string : Option (List Nat),
      convert_port_number p_string = INVALID_PORT ∨
      (1 ≤ convert_port_number p_string ∧ convert_port_number p_string ≤ 65535) := by
    intro p_string
    cases p_string with
    | none => exact Or.inl rfl
    | some str =>
      rw [convert_port_number_eq]
      by_cases h : 1 ≤ (strtol (if 5 < strnlen str 6 then str.set 5 0 else str)).value ∧
          (strtol (if 5 < strnlen str 6 then str.set 5 0 else str)).value ≤ 65535
      · rw [if_pos h]
        exact Or.inr h
      · rw [if_neg h]
        exact Or.inl rfl
  have hrej : ∀ p_string : Option (List Nat),
      main_rejects_port p_string = true ↔ convert_port_number p_string = INVALID_PORT := by
    intro p_string
    unfold main_rejects_port
    simp only [decide_eq_true_eq]
    constructor
    · intro hneg
      rcases hrange p_string with h | h
      · exact h
      · omega
    · intro h
      rw [h]
      decide
  have hcut : ∀ str : List Nat,
      strtol (if 5 < strnlen str 6 then str.set 5 0 else str) = strtol ((cstr str).take 5) := by
    intro str
    exact strtol_congr _ _ (by rw [cstr_truncate, cstr_take_cstr])
  have hacc : ∀ str : List Nat,
      (main_rejects_port (some str) = false ↔
        1 ≤ (strtol ((cstr str).take 5)).value ∧ (strtol ((cstr str).take 5)).value ≤ 65535) ∧
      (main_rejects_port (some str) = false →
        convert_port_number (some str) = (strtol ((cstr str).take 5)).value) := by
    intro str
    have he := convert_port_number_eq str
    rw [hcut str] at he
    have hiff : main_rejects_port (some str) = false ↔
        1 ≤ (strtol ((cstr str).take 5)).value ∧ (strtol ((cstr str).take 5)).value ≤ 65535 := by
      rw [← Bool.not_eq_true, hrej, he]
      constructor
      · intro h
        by_contra hn
        rw [if_neg hn] at h
        exact h rfl
      · intro h
        rw [if_pos h]
        simp only [INVALID_PORT]
        omega
    refine ⟨hiff, ?_⟩
    intro h
    rw [he, if_pos (hiff.1 h)]
  refine ⟨by decide, by decide, by decide, by decide, hrange, rfl, by decide, ?_, by decide,
    by decide, by decide, hrej, hacc, ?_, by decide, by decide, by decide, by decide, by decide,
    by decide⟩
  · intro str hle
    have h1 : convert_port_number (some str) = INVALID_PORT := by
      rw [convert_port_number_eq, hcut, if_neg]
      have := strtol_take_nonpos str hle
      omega
    exact ⟨h1, (hrej _).2 h1⟩
  · intro ds hnum hlen
    have h5 := convert_port_number_five_chars ds hnum hlen
    have hv := digits_value_short ds hnum.2 hlen
    have hc : cstr ds = ds := by
      unfold cstr
      rw [List.takeWhile_eq_self_iff]
      intro x hx
      have := hnum.2 x hx
      simp only [isdigit, Bool.and_eq_true, decide_eq_true_eq] at this
      simp only [bne_iff_ne, ne_eq]
      omega
    have ht : (cstr ds).take 5 = ds := by
      rw [hc]
      exact List.take_of_length_le hlen
    have hlong : ¬ (LONG_MAX < (digits_value ds : Int)) := by
      simp only [LONG_MAX]
      omega
    have hval : (strtol ds).value = (digits_value ds : Int) := by
      rw [strtol_numeral ds hnum, if_neg hlong]
    have h6 := (hacc ds).1
    rw [ht, hval] at h6
    refine ⟨?_, h5.2.1⟩
    rw [h6]
    omega

/-! ## The worker state machine -/

/-- Once the flag is false and worker `w` is at the loop head or stopped, every
step of any thread keeps the flag false, keeps `w` at the loop head or stopped,
and adds no `sem_post` of `w`. -/
theorem worker_exit_step (s : Sys) (w : Nat) (a : Action)
    (hrun : s.serv.b_running = false)
    (hw : s.workers[w]? = some WorkerPc.loop_head ∨ s.workers[w]? = some WorkerPc.stopped) :
    (step s a).serv.b_running = false ∧
    ((step s a).workers[w]? = some WorkerPc.loop_head ∨
      (step s a).workers[w]? = some WorkerPc.stopped) ∧
    (step s a).serv.log.count (Event.sem_post w) = s.serv.log.count (Event.sem_post w) := by
  have hlt : w < s.workers.length := by
    rcases Nat.lt_or_ge w s.workers.length with h | h
    · exact h
    · rw [List.getElem?_eq_none h] at hw
      rcases hw with hw | hw <;> cases hw
  have hother : ∀ (w2 : Nat) (x : WorkerPc), w2 ≠ w →
      ((s.workers.set w2 x)[w]? = some WorkerPc.loop_head ∨
        (s.workers.set w2 x)[w]? = some WorkerPc.stopped) := by
    intro w2 x hne
    rw [List.getElem?_set_ne hne]
    exact hw
  have hbusy : ∀ (w2 : Nat) (x : WorkerPc), s.workers[w2]? = some x →
      x ≠ WorkerPc.loop_head → x ≠ WorkerPc.stopped → w2 ≠ w := by
    intro w2 x hx h1 h2 heq
    subst heq
    rw [hx] at hw
    rcases hw with hw | hw
    · exact h1 (Option.some.inj hw)
    · exact h2 (Option.some.inj hw)
  cases a with
  | acceptor_check =>
    simp only [step, acceptor_check]
    split
    · split <;> exact ⟨hrun, hw, rfl⟩
    · exact ⟨hrun, hw, rfl⟩
  | accept client_fd =>
    simp only [step, acceptor_accept]
    split
    · split
      · exact ⟨hrun, hw, rfl⟩
      · split
        · exact ⟨hrun, hw, by simp [notify_client_max_connections, Serv.emit, List.count_cons]⟩
        · exact ⟨hrun, hw, by simp [List.count_cons]⟩
    · exact ⟨hrun, hw, rfl⟩
  | publish =>
    simp only [step, acceptor_publish]
    split
    · split
      · exact ⟨hrun, hw, by simp [Serv.emit, List.count_cons]⟩
      · exact ⟨hrun, hw, rfl⟩
    · exact ⟨hrun, hw, rfl⟩
  | worker_check w2 =>
    simp only [step, worker_check]
    split
    · split
      · rename_i htrue
        rw [hrun] at htrue
        cases htrue
      · refine ⟨hrun, ?_, rfl⟩
        by_cases hww : w2 = w
        · subst hww
          exact Or.inr (List.getElem?_set_self hlt)
        · exact hother w2 _ hww
    · exact ⟨hrun, hw, rfl⟩
  | take w2 =>
    simp only [step, worker_take]
    split
    · rename_i hw2
      have hne := hbusy w2 _ hw2 (by simp) (by simp)
      split
      · exact ⟨hrun, hw, rfl⟩
      · split <;> exact ⟨hrun, hother w2 _ hne, rfl⟩
    · exact ⟨hrun, hw, rfl⟩
  | serve w2 client alloc_ok =>
    simp only [step, worker_serve]
    split
    · rename_i fd hw2
      have hne := hbusy w2 _ hw2 (by simp) (by simp)
      split
      · exact ⟨hrun, hw, rfl⟩
      · exact ⟨hrun, hother w2 _ hne, rfl⟩
    · exact ⟨hrun, hw, rfl⟩
  | close w2 =>
    simp only [step, worker_close]
    split
    · rename_i fd hw2
      have hne := hbusy w2 _ hw2 (by simp) (by simp)
      exact ⟨hrun, hother w2 _ hne, by simp [Serv.emit, List.count_cons]⟩
    · exact ⟨hrun, hw, rfl⟩
  | post w2 =>
    simp only [step, worker_post]
    split
    · rename_i hw2
      have hne := hbusy w2 _ hw2 (by simp) (by simp)
      exact ⟨hrun, hother w2 _ hne, by simp [List.count_cons, hne]⟩
    · exact ⟨hrun, hw, rfl⟩
  | interrupt =>
    simp only [step, interrupt]
    split
    · exact ⟨hrun, hw, rfl⟩
    · rename_i hne
      exact absurd hrun.symm hne

/-- The same along every schedule. -/
theorem worker_exit_run (acts : List Action) (s : Sys) (w : Nat)
    (hrun : s.serv.b_running = false)
    (hw : s.workers[w]? = some WorkerPc.loop_head ∨ s.workers[w]? = some WorkerPc.stopped) :
    (run s acts).serv.b_running = false ∧
    ((run s acts).workers[w]? = some WorkerPc.loop_head ∨
      (run s acts).workers[w]? = some WorkerPc.stopped) ∧
    (run s acts).serv.log.count (Event.sem_post w) = s.serv.log.count (Event.sem_post w) := by
  induction acts generalizing s with
  | nil => exact ⟨hrun, hw, rfl⟩
  | cons a rest ih =>
    obtain ⟨h1, h2, h3⟩ := worker_exit_step s w a hrun hw
    obtain ⟨k1, k2, k3⟩ := ih (step s a) h1 h2
    exact ⟨k1, k2, k3.trans h3⟩

/-- A waiting worker that finds the slot empty on a stopped server goes back to
the loop head. -/
theorem take_leaves (s : Sys) (w : Nat) (hw : s.workers[w]? = some WorkerPc.waiting)
    (h0 : s.serv.new_connection_fd = 0) (hr : s.serv.b_running = false) :
    step s (Action.take w) =
      { s with serv := { s.serv with new_connection_fd := 0 },
               workers := s.workers.set w WorkerPc.loop_head } := by
  simp [step, worker_take, hw, h0, hr, take]

/-- At the loop head of a stopped server a worker returns. -/
theorem check_stops (t : Sys) (w : Nat) (hpc : t.workers[w]? = some WorkerPc.loop_head)
    (hr : t.serv.b_running = false) :
    step t (Action.worker_check w) = { t with workers := t.workers.set w WorkerPc.stopped } := by
  simp [step, worker_check, hpc, hr]

/-- The round in which `handle_client` returns false takes the worker to the
close. -/
theorem serve_last (t : Sys) (w : Nat) (fd : Int) (last : Sock × Bool)
    (hpc : t.workers[w]? = some (WorkerPc.serving fd))
    (hlast : (handle_client last.1 last.2).1 = false) :
    step t (Action.serve w last.1 last.2) =
      { t with workers := t.workers.set w (WorkerPc.closing fd) } := by
  simp [step, worker_serve, hpc, hlast]

/-- The close of the handle takes the worker to the release. -/
theorem close_step (t : Sys) (w : Nat) (fd : Int)
    (hpc : t.workers[w]? = some (WorkerPc.closing fd)) :
    step t (Action.close w) =
      { t with serv := { t.serv with log := t.serv.log ++ [Event.close fd] },
               workers := t.workers.set w WorkerPc.posting } := by
  simp [step, worker_close, hpc, Serv.emit]

/-- C15: the worker state machine. A waiting worker stays in the wait while the
slot is empty and the server runs, so it leaves the wait with an empty slot
only when `running` is false. In that case it changes nothing in the shared
state, returns on its next step (it is stopped), and under every schedule it
is at the loop head or stopped from then on, so it never serves, closes or
posts. When it leaves the wait with a non-empty slot it empties the slot and
serves exactly that handle: it stays serving while `handle_client` returns
true, and after the round in which `handle_client` returns false it closes that
handle, then releases one permit, and is back at the loop head. -/
theorem worker_state_machine (s : Sys) (w : Nat)
    (hw : s.workers[w]? = some WorkerPc.waiting) :
    (s.serv.new_connection_fd = 0 → s.serv.b_running = true →
      step s (Action.take w) = s) ∧
    (s.serv.new_connection_fd = 0 →
      (step s (Action.take w)).workers[w]? ≠ some WorkerPc.waiting →
      s.serv.b_running = false) ∧
    (s.serv.new_connection_fd = 0 → s.serv.b_running = false →
      (step s (Action.take w)).workers[w]? = some WorkerPc.loop_head ∧
      (step s (Action.take w)).serv = s.serv ∧
      (step (step s (Action.take w)) (Action.worker_check w)).workers[w]? =
        some WorkerPc.stopped ∧
      (step (step s (Action.take w)) (Action.worker_check w)).serv = s.serv ∧
      ∀ acts : List Action,
        ((run (step s (Action.take w)) acts).workers[w]? = some WorkerPc.loop_head ∨
          (run (step s (Action.take w)) acts).workers[w]? = some WorkerPc.stopped) ∧
        (run (step s (Action.take w)) acts).serv.log.count (Event.sem_post w) =
          s.serv.log.count (Event.sem_post w)) ∧
    (s.serv.new_connection_fd ≠ 0 →
      (step s (Action.take w)).workers[w]? =
        some (WorkerPc.serving s.serv.new_connection_fd) ∧
      (step s (Action.take w)).serv = { s.serv with new_connection_fd := 0 } ∧
      ∀ (rounds : List (Sock × Bool)) (last : Sock × Bool),
        (∀ r ∈ rounds, (handle_client r.1 r.2).1 = true) →
        (handle_client last.1 last.2).1 = false →
        run (step s (Action.take w)) (rounds.map (fun r => Action.serve w r.1 r.2)) =
          step s (Action.take w) ∧
        (run (step s (Action.take w)) (rounds.map (fun r => Action.serve w r.1 r.2) ++
          [Action.serve w last.1 last.2])).workers[w]? =
            some (WorkerPc.closing s.serv.new_connection_fd) ∧
        (run (step s (Action.take w)) (rounds.map (fun r => Action.serve w r.1 r.2) ++
          [Action.serve w last.1 last.2])).serv.log = s.serv.log ∧
        (run (step s (Action.take w)) (rounds.map (fun r => Action.serve w r.1 r.2) ++
          [Action.serve w last.1 last.2, Action.close w])).workers[w]? =
            some WorkerPc.posting ∧
        (run (step s (Action.take w)) (rounds.map (fun r => Action.serve w r.1 r.2) ++
          [Action.serve w last.1 last.2, Action.close w])).serv.log =
            s.serv.log ++ [Event.close s.serv.new_connection_fd] ∧
        (run (step s (Action.take w)) (rounds.map (fun r => Action.serve w r.1 r.2) ++
          [Action.serve w last.1 last.2, Action.close w])).serv.client_count_sem =
            s.serv.client_count_sem ∧
        (run (step s (Action.take w)) (rounds.map (fun r => Action.serve w r.1 r.2) ++
          [Action.serve w last.1 last.2, Action.close w, Action.post w])).workers[w]? =
            some WorkerPc.loop_head ∧
        (run (step s (Action.take w)) (rounds.map (fun r => Action.serve w r.1 r.2) ++
          [Action.serve w last.1 last.2, Action.close w, Action.post w])).serv.log =
            s.serv.log ++ [Event.close s.serv.new_connection_fd, Event.sem_post w] ∧
        (run (step s (Action.take w)) (rounds.map (fun r => Action.serve w r.1 r.2) ++
          [Action.serve w last.1 last.2, Action.close w, Action.post w])).serv.client_count_sem =
            s.serv.client_count_sem + 1) := by
  have hlt : w < s.workers.length := by
    rcases Nat.lt_or_ge w s.workers.length with h | h
    · exact h
    · rw [List.getElem?_eq_none h] at hw
      cases hw
  have hstay : s.serv.new_connection_fd = 0 → s.serv.b_running = true →
      step s (Action.take w) = s := by
    intro h0 hr
    simp [step, worker_take, hw, h0, hr]
  refine ⟨hstay, ?_, ?_, ?_⟩
  · intro h0 hne
    cases hr : s.serv.b_running
    · rfl
    · rw [hstay h0 hr] at hne
      exact absurd hw hne
  · intro h0 hr
    have h1 := take_leaves s w hw h0 hr
    have hserv : ({ s.serv with new_connection_fd := 0 } : Serv) = s.serv := by
      cases hs : s.serv
      rw [hs] at h0
      simp only [Serv.mk.injEq, true_and, and_true]
      exact h0.symm
    have hpc : (step s (Action.take w)).workers[w]? = some WorkerPc.loop_head := by
      rw [h1]
      exact List.getElem?_set_self hlt
    have hsv : (step s (Action.take w)).serv = s.serv := by
      rw [h1]
      exact hserv
    have hrun2 : (step s (Action.take w)).serv.b_running = false := by
      rw [hsv]
      exact hr
    have hlt2 : w < (step s (Action.take w)).workers.length := by
      rw [h1]
      simpa using hlt
    have h2 := check_stops (step s (Action.take w)) w hpc hrun2
    refine ⟨hpc, hsv, ?_, ?_, ?_⟩
    · rw [h2]
      exact List.getElem?_set_self hlt2
    · rw [h2]
      exact hsv
    · intro acts
      obtain ⟨_, k2, k3⟩ := worker_exit_run acts (step s (Action.take w)) w hrun2 (Or.inl hpc)
      refine ⟨k2, ?_⟩
      rw [k3, hsv]
  · intro hne
    have h1 := take_serves s w hw hne
    have hpc : (step s (Action.take w)).workers[w]? =
        some (WorkerPc.serving s.serv.new_connection_fd) := by
      rw [h1]
      exact List.getElem?_set_self hlt
    have hlog : (step s (Action.take w)).serv.log = s.serv.log := by rw [h1]
    have hsem : (step s (Action.take w)).serv.client_count_sem = s.serv.client_count_sem := by
      rw [h1]
    have hlt2 : w < (step s (Action.take w)).workers.length := by
      rw [h1]
      simpa using hlt
    refine ⟨hpc, by rw [h1], ?_⟩
    intro rounds last hrounds hlast
    have hr := serve_rounds_stay rounds (step s (Action.take w)) w hrounds
    have hend := session_end (step s (Action.take w)) w s.serv.new_connection_fd last hpc hlast
    have hs1 := serve_last (step s (Action.take w)) w s.serv.new_connection_fd last hpc hlast
    have hpc1 : (step (step s (Action.take w)) (Action.serve w last.1 last.2)).workers[w]? =
        some (WorkerPc.closing s.serv.new_connection_fd) := by
      rw [hs1]
      exact List.getElem?_set_self hlt2
    have hs2 := close_step _ w s.serv.new_connection_fd hpc1
    have hlt3 : w < (step (step s (Action.take w))
        (Action.serve w last.1 last.2)).workers.length := by
      rw [hs1]
      simpa using hlt2
    have hrun1 : run (step s (Action.take w)) [Action.serve w last.1 last.2] =
        step (step s (Action.take w)) (Action.serve w last.1 last.2) := rfl
    have hrun2 : run (step s (Action.take w)) [Action.serve w last.1 last.2, Action.close w] =
        step (step (step s (Action.take w)) (Action.serve w last.1 last.2)) (Action.close w) :=
      rfl
    refine ⟨hr, ?_, ?_, ?_, ?_, ?_, ?_, ?_, ?_⟩
    · rw [run_append, hr, hrun1]
      exact hpc1
    · rw [run_append, hr, hrun1, hs1]
      exact hlog
    · rw [run_append, hr, hrun2, hs2]
      exact List.getElem?_set_self hlt3
    · rw [run_append, hr, hrun2, hs2, hs1]
      simp only [hlog]
    · rw [run_append, hr, hrun2, hs2, hs1]
      exact hsem
    · rw [run_append, hr, hend]
      exact List.getElem?_set_self hlt2
    · rw [run_append, hr, hend]
      simp only [hlog]
    · rw [run_append, hr, hend]
      simp only [hsem]

/-- Witness for C15: worker 0 waits on a stopped server with an empty slot,
and on a running server whose slot holds descriptor 4. -/
theorem worker_state_machine_witness :
    (run (init_sys 2) [Action.worker_check 0, Action.interrupt]).workers[0]? =
      some WorkerPc.waiting ∧
    (step (step (run (init_sys 2) [Action.worker_check 0, Action.interrupt]) (Action.take 0))
      (Action.worker_check 0)).workers[0]? = some WorkerPc.stopped ∧
    (step (run (init_sys 2) [Action.worker_check 0, Action.acceptor_check, Action.accept 4,
      Action.publish]) (Action.take 0)).workers[0]? = some (WorkerPc.serving 4) :=
  ⟨by decide,
   ((worker_state_machine (run (init_sys 2) [Action.worker_check 0, Action.interrupt]) 0
      (by decide)).2.2.1 (by decide) (by decide)).2.2.1,
   ((worker_state_machine (run (init_sys 2) [Action.worker_check 0, Action.acceptor_check,
      Action.accept 4, Action.publish]) 0 (by decide)).2.2.2 (by decide)).1⟩

/-! ## The client handshake -/

/-- C16, at the failing input. The server has turned the client away, so the
first byte that arrives is `'U'`, the start of the capacity notice. The
receive returns 1, the test `'0' != buff[0] && 1 != err` is false, no handshake
error is reported, and the client sends its request. In general the test
rejects only when the byte is not `'0'` and the count is not 1 at once, so
every single byte passes it. -/
theorem client_accepts_any_single_byte :
    (handshake_recv overload_conn).ret = 1 ∧
    (handshake_recv overload_conn).buf.headD 0 = 85 ∧
    ¬ spec_handshake_ok overload_conn ∧
    handshake_rejected overload_conn = false ∧
    (client_main_one_shot MAX_BUFFER_SIZE overload_conn (str_bytes "3 - 2")).handshake_error
      = false ∧
    (client_main_one_shot MAX_BUFFER_SIZE overload_conn (str_bytes "3 - 2")).conn.outbox
      = [placeholder_request] ∧
    (client_main_one_shot MAX_BUFFER_SIZE overload_conn (str_bytes "3 - 2")).exit_status
      = EXIT_SUCCESS ∧
    (∀ conn : Sock, handshake_rejected conn = true ↔
      ((handshake_recv conn).buf.headD 0 ≠ 48 ∧ (handshake_recv conn).ret ≠ 1)) ∧
    (∀ conn : Sock, (handshake_recv conn).ret = 1 → handshake_rejected conn = false) ∧
    (∀ conn : Sock, spec_handshake_ok conn → handshake_rejected conn = false) := by
  have hiff : ∀ conn : Sock, handshake_rejected conn = true ↔
      ((handshake_recv conn).buf.headD 0 ≠ 48 ∧ (handshake_recv conn).ret ≠ 1) := by
    intro conn
    unfold handshake_rejected
    simp only [Bool.and_eq_true, decide_eq_true_eq, ne_eq]
    constructor
    · intro h
      exact ⟨fun e => h.1 e.symm, fun e => h.2 e.symm⟩
    · intro h
      exact ⟨fun e => h.1 e.symm, fun e => h.2 e.symm⟩
  have hone : ∀ conn : Sock, (handshake_recv conn).ret = 1 → handshake_rejected conn = false := by
    intro conn h1
    cases hr : handshake_rejected conn
    · rfl
    · exact absurd h1 ((hiff conn).1 hr).2
  refine ⟨by decide, by decide, by decide, by decide, by decide, by decide, by decide, hiff,
    hone, fun conn h => hone conn h.1⟩

end ProblemCode
